import Mathlib

/-!
Verification development for the Dashboard-Assignment repository.

The Python source materializes a Neo4j property graph as a NetworkX
directed graph, and offers pattern search, free-text node search and
string-parsed property filters over it.  This file gives a shallow
embedding of the data model and of the operations under scrutiny:

* property values (`PValue`) as the tagged union of the payload value kinds;
* the Python string primitives the filter grammar relies on
  (lower, strip, substring test, split, replace, float parsing, str);
* the NetworkX DiGraph fragment used by `graph_plotting.GraphPlotter`
  (`add_node` / `add_edge` with attribute-dict update semantics);
* the graph build, node styling, highlight/reset, statistics,
  the in-memory pattern matcher of `Project files/app.py`, and the
  two string filter-condition evaluators.

Dicts are modeled as insertion-ordered association lists with the
unique-key update discipline of Python dicts.  Python floats are modeled
as rationals; no claim under study depends on rounding.
-/

namespace Dashboard

/-- Tagged union of the property value kinds the payload may carry
(`Null / Boolean / Integer / Float / Text / List`).  Floats are modeled
as rationals. -/
inductive PValue : Type where
  | pnull : PValue
  | pbool : Bool → PValue
  | pint : Int → PValue
  | pnum : Rat → PValue
  | pstr : String → PValue
  | plist : List PValue → PValue
deriving Repr

/-! ## Python string primitives -/

/-- Model of Python `str.lower` on a single character (ASCII fragment). -/
def lowerChar (c : Char) : Char :=
  if 'A' ≤ c ∧ c ≤ 'Z' then Char.ofNat (c.toNat + 32) else c

/-- Model of Python `str.lower`: lowercase every character. -/
def lowerStr (l : List Char) : List Char := l.map lowerChar

/-- Whitespace characters recognized by Python `str.strip()`. -/
def isSpace (c : Char) : Bool := c = ' ' ∨ c = '\t' ∨ c = '\n' ∨ c = '\r'

/-- Quote characters stripped by the sources via `strip("'\"")`. -/
def isQuote (c : Char) : Bool := c = '\'' ∨ c = '\"'

/-- Drop the characters satisfying `p` from the end of the list. -/
def rstripP (p : Char → Bool) (l : List Char) : List Char :=
  (l.reverse.dropWhile p).reverse

/-- Model of Python `str.strip` with character class `p`: drop matching
characters from both ends. -/
def pyStrip (p : Char → Bool) (l : List Char) : List Char :=
  rstripP p (l.dropWhile p)

/-- Model of the Python substring test `needle in hay`. -/
def subIn (needle : List Char) : List Char → Bool
  | [] => needle.isEmpty
  | c :: t => needle.isPrefixOf (c :: t) || subIn needle t

/-- Fuel-driven worker for `pySplit`; the fuel is the length of the input,
which bounds the number of recursion steps. -/
def pySplitAux (sep : List Char) : Nat → List Char → List (List Char)
  | _, [] => [[]]
  | 0, l => [l]
  | fuel + 1, c :: t =>
    if sep.isPrefixOf (c :: t) ∧ sep ≠ [] then
      [] :: pySplitAux sep fuel (List.drop (sep.length - 1) t)
    else
      match pySplitAux sep fuel t with
      | [] => [[c]]
      | h :: r => (c :: h) :: r

/-- Model of Python `str.split(sep)` for a non-empty separator: the
pieces between consecutive non-overlapping occurrences of `sep`. -/
def pySplit (sep l : List Char) : List (List Char) :=
  pySplitAux sep l.length l

/-- Fuel-driven worker for `pyReplace`. -/
def pyReplaceAux (old new : List Char) : Nat → List Char → List Char
  | _, [] => []
  | 0, l => l
  | fuel + 1, c :: t =>
    if old.isPrefixOf (c :: t) ∧ old ≠ [] then
      new ++ pyReplaceAux old new fuel (List.drop (old.length - 1) t)
    else
      c :: pyReplaceAux old new fuel t

/-- Model of Python `str.replace(old, new)` for a non-empty `old`:
replace every non-overlapping occurrence, scanning left to right. -/
def pyReplace (old new l : List Char) : List Char :=
  pyReplaceAux old new l.length l

/-- Model of Python `str.isdigit` (ASCII fragment): non-empty and all
characters are decimal digits. -/
def pyIsDigit (l : List Char) : Bool := !l.isEmpty && l.all Char.isDigit

/-- Numeric value of a list of decimal digit characters. -/
def digitsVal (l : List Char) : Nat :=
  l.foldl (fun a c => a * 10 + (c.toNat - 48)) 0

/-- Fuel-driven worker producing the decimal digits of a natural number. -/
def natDigitsAux : Nat → Nat → List Char
  | 0, _ => []
  | fuel + 1, n =>
    if n < 10 then [Char.ofNat (48 + n)]
    else natDigitsAux fuel (n / 10) ++ [Char.ofNat (48 + n % 10)]

/-- Decimal digit characters of a natural number. -/
def natDigits (n : Nat) : List Char := natDigitsAux (n + 1) n

/-- Model of Python `str` on an integer. -/
def intStr (n : Int) : List Char :=
  if n < 0 then '-' :: natDigits n.natAbs else natDigits n.toNat

/-- Fractional decimal digits of `num / den` (with `num < den`),
up to the given fuel, stopping at an exact zero remainder. -/
def fracDigits : Nat → Nat → Nat → List Char
  | 0, _, _ => []
  | fuel + 1, num, den =>
    if num = 0 then []
    else Char.ofNat (48 + num * 10 / den) :: fracDigits fuel (num * 10 % den) den

/-- Model of Python `str` on a float, represented as a rational: sign,
integer part, a decimal point and fractional digits (capped at 17 digits,
the precision cap of CPython float repr).  Every produced character is a
sign, digit or dot; no claim depends on finer float-formatting detail. -/
def ratStr (q : Rat) : List Char :=
  let sign := if q < 0 then ['-'] else ([] : List Char)
  let a : Rat := |q|
  let ip : Nat := a.floor.toNat
  let fr : Rat := a - a.floor
  sign ++ natDigits ip ++ '.' ::
    (if fr = 0 then ['0'] else fracDigits 17 fr.num.toNat fr.den)

/-- Model of Python `repr` on a property value (used inside list display):
strings gain quotes, other values render as by `str`. -/
def pyReprElem (fuel : Nat) : PValue → List Char :=
  fun v =>
    match fuel, v with
    | _, .pnull => "None".data
    | _, .pbool true => "True".data
    | _, .pbool false => "False".data
    | _, .pint n => intStr n
    | _, .pnum q => ratStr q
    | _, .pstr s => '\'' :: s.data ++ ['\'']
    | 0, .plist _ => "[...]".data
    | fuel + 1, .plist l =>
      '[' :: List.intercalate (", ".data) (l.map (pyReprElem fuel)) ++ [']']

/-- Model of Python `str` on a property value. -/
def pyStr : PValue → List Char
  | .pnull => "None".data
  | .pbool true => "True".data
  | .pbool false => "False".data
  | .pint n => intStr n
  | .pnum q => ratStr q
  | .pstr s => s.data
  | .plist l => '[' :: List.intercalate (", ".data) (l.map (pyReprElem 8)) ++ [']']

/-- Core of Python `float(str)` after sign handling: digits with an
optional single decimal point, at least one digit overall.  Exponent
notation and inf/nan are not modeled; no claim depends on them. -/
def pyFloatCore (l : List Char) : Option Rat :=
  let ip := l.takeWhile Char.isDigit
  let rest := l.drop ip.length
  match rest with
  | [] => if ip.isEmpty then none else some (digitsVal ip : Rat)
  | '.' :: fr =>
    if fr.all Char.isDigit ∧ ¬(ip.isEmpty ∧ fr.isEmpty) then
      some ((digitsVal ip : Rat) + (digitsVal fr : Rat) / ((10 : Rat) ^ fr.length))
    else none
  | _ => none

/-- Model of Python `float(str)`: surrounding whitespace is ignored, an
optional sign precedes the digits; returns `none` where Python raises
`ValueError`. -/
def pyFloat (l : List Char) : Option Rat :=
  match pyStrip isSpace l with
  | '-' :: r => (pyFloatCore r).map (fun q => -q)
  | '+' :: r => pyFloatCore r
  | r => pyFloatCore r

/-- Model of Python `float(value)` on a property value: bools and numbers
coerce, strings are parsed, `None` and lists raise (`none`). -/
def pyFloatOfValue : PValue → Option Rat
  | .pint n => some (n : Rat)
  | .pnum q => some q
  | .pbool b => some (if b then 1 else 0)
  | .pstr s => pyFloat s.data
  | _ => none

/-! ## Dicts as insertion-ordered association lists -/

/-- First value stored under key `k`, if any (Python `d.get(k)` /
`d[k]`); keys of a Python dict are unique, so the first match is the
only one. -/
def dictGet? {α : Type} (d : List (String × α)) (k : String) : Option α :=
  (d.find? (fun p => p.1 == k)).map (fun p => p.2)

/-- Key membership test (Python `k in d`). -/
def dictHas {α : Type} (d : List (String × α)) (k : String) : Bool :=
  (d.find? (fun p => p.1 == k)).isSome

/-- Model of Python `d[k] = v`: overwrite the entry in place if the key
exists, else append a fresh entry (insertion order is preserved). -/
def dictSet {α : Type} : List (String × α) → String → α → List (String × α)
  | [], k, v => [(k, v)]
  | p :: r, k, v => if p.1 == k then (k, v) :: r else p :: dictSet r k v

/-- Model of Python `d.update(new)`: set every pair of `new` in order. -/
def dictUpdate {α : Type} (d new : List (String × α)) : List (String × α) :=
  new.foldl (fun acc p => dictSet acc p.1 p.2) d

/-! ## Raw payload (the fetch contract) -/

/-- A raw node record of the payload: a label list and a property map. -/
structure RawNode : Type where
  labels : List String
  properties : List (String × PValue)
deriving Repr

/-- A raw relationship record of the payload: a type, a property map and
the ids of its endpoint nodes. -/
structure RawRel : Type where
  type : String
  properties : List (String × PValue)
  start_node : String
  end_node : String
deriving Repr

/-- The raw graph payload handed over by the fetch collaborator:
insertion-ordered dicts of nodes and relationships keyed by element id. -/
structure GraphData : Type where
  nodes : List (String × RawNode)
  relationships : List (String × RawRel)
deriving Repr

/-- Primary type of a raw node record: `labels[0]` if the label list is
non-empty, else the sentinel `"Unknown"`. -/
def rawNodeType (info : RawNode) : String := info.labels.headD "Unknown"

/-! ## The NetworkX DiGraph fragment used by the sources -/

/-- A directed simple graph with attribute dicts on nodes and edges,
mirroring `networkx.DiGraph`: nodes are keyed by id, edges by the
ordered pair (source, target); both lists are in insertion order and
have unique keys by construction. -/
structure Digraph : Type where
  nodes : List (String × List (String × PValue))
  edges : List ((String × String) × List (String × PValue))
deriving Repr

/-- The empty DiGraph. -/
def Digraph.empty : Digraph := ⟨[], []⟩

/-- Edge-key membership test. -/
def edgeHas (es : List ((String × String) × List (String × PValue)))
    (k : String × String) : Bool :=
  (es.find? (fun p => p.1 == k)).isSome

/-- Model of `DiGraph.add_node(id, **attrs)`: a new node is appended; an
existing node has its attribute dict updated. -/
def addNode (g : Digraph) (id : String) (attrs : List (String × PValue)) : Digraph :=
  if dictHas g.nodes id then
    { g with nodes := g.nodes.map (fun p => if p.1 == id then (p.1, dictUpdate p.2 attrs) else p) }
  else
    { g with nodes := g.nodes ++ [(id, attrs)] }

/-- Model of `DiGraph.add_edge(u, v, **attrs)`: missing endpoints are
silently added as attribute-less nodes; a new edge is appended, an
existing edge has its attribute dict updated. -/
def addEdge (g : Digraph) (u v : String) (attrs : List (String × PValue)) : Digraph :=
  let ns0 := if dictHas g.nodes u then g.nodes else g.nodes ++ [(u, [])]
  let ns1 := if dictHas ns0 v then ns0 else ns0 ++ [(v, [])]
  let es :=
    if edgeHas g.edges (u, v) then
      g.edges.map (fun p => if p.1 == (u, v) then (p.1, dictUpdate p.2 attrs) else p)
    else
      g.edges ++ [((u, v), attrs)]
  ⟨ns1, es⟩

/-- The attribute dict a raw node receives at build time: `label` and
`type` are set to the primary type, then the node's own property map is
merged on top (`node_props.update(node_info["properties"])`) — a
property named `label` or `type` therefore overrides the discriminator. -/
def nodeProps (info : RawNode) : List (String × PValue) :=
  dictUpdate [("label", .pstr (rawNodeType info)), ("type", .pstr (rawNodeType info))]
    info.properties

/-- The attribute dict a raw relationship receives at build time:
`type=rel_info["type"]` plus the relationship's property map. -/
def relProps (rel : RawRel) : List (String × PValue) :=
  dictUpdate [("type", .pstr rel.type)] rel.properties

/-- Model of `GraphPlotter._create_networkx_graph`: add every payload
node with its derived attributes, then add every relationship as an
edge from its start node to its end node. -/
def buildGraph (gd : GraphData) : Digraph :=
  let g0 := gd.nodes.foldl (fun g p => addNode g p.1 (nodeProps p.2)) Digraph.empty
  gd.relationships.foldl (fun g p => addEdge g p.2.start_node p.2.end_node (relProps p.2)) g0

/-- Attribute dict of a node of the graph, if present. -/
def nodeAttrs? (g : Digraph) (id : String) : Option (List (String × PValue)) :=
  dictGet? g.nodes id

/-- Model of `G.nodes[node].get("type", "Unknown")`, the canonical type
lookup the plotting and statistics code performs. -/
def nodeTypeOf (g : Digraph) (id : String) : PValue :=
  match nodeAttrs? g id with
  | some attrs => (dictGet? attrs "type").getD (.pstr "Unknown")
  | none => .pstr "Unknown"

/-! ## Node styling, text search and statistics (`graph_plotting.py`) -/

/-- Type-based node color of `GraphPlotter._get_node_styling`. -/
def stylingColorOf (t : String) : String :=
  if t = "Movie" then "#3182bd"
  else if t = "Person" then "#31a354"
  else if t = "Actor_1" ∨ "Actor".isPrefixOf t then "#31a354"
  else if t = "Director" then "#e6550d"
  else if t = "Genre" then "#e6550d"
  else "#756bb1"

/-- Type-based node size of `GraphPlotter._get_node_styling`. -/
def stylingSizeOf (t : String) : Nat :=
  if t = "Movie" then 10
  else if t = "Person" then 8
  else if t = "Actor_1" ∨ "Actor".isPrefixOf t then 8
  else if t = "Director" then 12
  else if t = "Genre" then 6
  else 5

/-- The string the styling code reads from a node's `type` attribute:
the attribute itself when it is a string, the default `"Unknown"` when
it is absent.  A non-string `type` attribute would make the Python code
raise at `node_type.startswith`; such graphs are outside the scope of
the styling theorems (see `stylingDefined`). -/
def typeStringOf (attrs : List (String × PValue)) : String :=
  match dictGet? attrs "type" with
  | some (.pstr s) => s
  | some _ => ""
  | none => "Unknown"

/-- Every node's `type` attribute is a string or absent — the domain on
which `_get_node_styling` is exception-free. -/
def stylingDefined (g : Digraph) : Bool :=
  g.nodes.all (fun p =>
    match dictGet? p.2 "type" with
    | some (.pstr _) => true
    | some _ => false
    | none => true)

/-- Model of `GraphPlotter._get_node_styling`: per-node colors and sizes
derived purely from the node `type` attributes, in node order. -/
def getNodeStyling (g : Digraph) : List String × List Nat :=
  (g.nodes.map (fun p => stylingColorOf (typeStringOf p.2)),
   g.nodes.map (fun p => stylingSizeOf (typeStringOf p.2)))

/-- Python `isinstance(value, (str, int, float))`: the guard
`highlight_nodes` uses to select searchable property values.  A Python
`bool` is an `int` (`isinstance(True, int)` holds), so booleans pass. -/
def isSearchableValue : PValue → Bool
  | .pstr _ => true
  | .pint _ => true
  | .pnum _ => true
  | .pbool _ => true
  | _ => false

/-- One node's match test of `GraphPlotter.highlight_nodes`: some
attribute value of a searchable kind contains the (lowered) search term
(`str(value).lower().find(search_term) >= 0`). -/
def nodeMatchesSearch (attrs : List (String × PValue)) (loweredTerm : List Char) : Bool :=
  attrs.any (fun p => isSearchableValue p.2 && subIn loweredTerm (lowerStr (pyStr p.2)))

/-- Matching node ids returned by `highlight_nodes(search_term)`. -/
def highlightMatches (g : Digraph) (searchTerm : List Char) : List String :=
  (g.nodes.filter (fun p => nodeMatchesSearch p.2 (lowerStr searchTerm))).map (fun p => p.1)

/-- Color list written to the renderer by `highlight_nodes`: gold for
matches, the original type-based color otherwise. -/
def highlightColors (g : Digraph) (searchTerm : List Char) : List String :=
  g.nodes.map (fun p =>
    if nodeMatchesSearch p.2 (lowerStr searchTerm) then "#FFD700"
    else stylingColorOf (typeStringOf p.2))

/-- The mutable plotting state: the structural graph plus the color list
held by the renderer's data source (the only thing searches mutate).
The renderer is modeled as present, the state after
`create_visualization`. -/
structure PlotterState : Type where
  graph : Digraph
  colors : List String

/-- State effect of `highlight_nodes`: the renderer color list is
replaced; the graph itself is untouched. -/
def highlightState (s : PlotterState) (searchTerm : List Char) : PlotterState :=
  { s with colors := highlightColors s.graph searchTerm }

/-- Model of `reset_node_colors`: the renderer color list is reset to
the type-based styling of the current graph. -/
def resetNodeColors (s : PlotterState) : PlotterState :=
  { s with colors := (getNodeStyling s.graph).1 }

/-- Increment the count stored under `k`, starting absent keys at 1
(Python `d[k] = d.get(k, 0) + 1`); keyed by the raw attribute value. -/
def bump (beq : PValue → PValue → Bool) :
    List (PValue × Nat) → PValue → List (PValue × Nat)
  | [], k => [(k, 1)]
  | p :: r, k => if beq p.1 k then (p.1, p.2 + 1) :: r else p :: bump beq r k

/-- Equality on the attribute values the statistics dicts are keyed by.
List values are unhashable in Python (the statistics code would raise);
they are compared structurally here only to keep the function total. -/
def pvBeq : PValue → PValue → Bool
  | .pnull, .pnull => true
  | .pbool a, .pbool b => a == b
  | .pint a, .pint b => a == b
  | .pnum a, .pnum b => a == b
  | .pstr a, .pstr b => a == b
  | _, _ => false

/-- Per-type node histogram of `get_graph_statistics`: each node bumps
the count of its `type` attribute (default `"Unknown"`). -/
def nodeTypeHistogram (g : Digraph) : List (PValue × Nat) :=
  g.nodes.foldl (fun d p => bump pvBeq d ((dictGet? p.2 "type").getD (.pstr "Unknown"))) []

/-- Per-type relationship histogram of `get_graph_statistics`: each edge
bumps the count of its `type` attribute (default `"Unknown"`). -/
def edgeTypeHistogram (g : Digraph) : List (PValue × Nat) :=
  g.edges.foldl (fun d p => bump pvBeq d ((dictGet? p.2 "type").getD (.pstr "Unknown"))) []

/-- Sum of the counts of a histogram. -/
def histTotal (d : List (PValue × Nat)) : Nat := (d.map (fun p => p.2)).sum

/-- The statistics record assembled by `get_graph_statistics`
(`is_connected` and `density` are external NetworkX calls on the same
graph and carry no per-type counts; they are omitted). -/
structure GraphStats : Type where
  total_nodes : Nat
  total_edges : Nat
  node_types : List (PValue × Nat)
  edge_types : List (PValue × Nat)

/-- Model of `GraphPlotter.get_graph_statistics`. -/
def getGraphStatistics (g : Digraph) : GraphStats :=
  ⟨g.nodes.length, g.edges.length, nodeTypeHistogram g, edgeTypeHistogram g⟩

/-! ## The in-memory pattern matcher (`Project files/app.py`,
`create_pattern_visualization` / `search_pattern`) -/

/-- The type-A node list of the pattern search: node ids whose primary
type equals `type_a` (the first branch of the `if`/`elif`). -/
def matchingNodesA (gd : GraphData) (typeA typeB : String) : List String :=
  (gd.nodes.filter (fun p => rawNodeType p.2 == typeA)).map (fun p => p.1)

/-- The type-B node list of the pattern search: node ids whose primary
type is NOT `type_a` and equals `type_b` — the `elif` branch, reached
only when the `if` branch failed. -/
def matchingNodesB (gd : GraphData) (typeA typeB : String) : List String :=
  (gd.nodes.filter (fun p => rawNodeType p.2 != typeA && rawNodeType p.2 == typeB)).map
    (fun p => p.1)

/-- The matching `(start_node, end_node, rel_info)` triples: the
relationship type equals the queried one, the start node is in the
type-A list and the end node is in the type-B list. -/
def matchingRelationships (gd : GraphData) (typeA relType typeB : String) :
    List (String × String × RawRel) :=
  (gd.relationships.filter (fun p =>
      p.2.type == relType
        && (matchingNodesA gd typeA typeB).contains p.2.start_node
        && (matchingNodesB gd typeA typeB).contains p.2.end_node)).map
    (fun p => (p.2.start_node, p.2.end_node, p.2))

/-- Model of the `pattern_G` the search builds: every node of
`set(matching_nodes_a + matching_nodes_b)` is added with its payload
attributes, then every matching relationship is added as an edge.  The
Python set has no specified iteration order; deduplication in first-seen
order is one of its orders, and the theorems below only use membership. -/
def patternGraph (gd : GraphData) (typeA relType typeB : String) : Digraph :=
  let ids := (matchingNodesA gd typeA typeB ++ matchingNodesB gd typeA typeB).dedup
  let g0 := ids.foldl (fun g id =>
    match dictGet? gd.nodes id with
    | some info => addNode g id (nodeProps info)
    | none => g) Digraph.empty
  (matchingRelationships gd typeA relType typeB).foldl
    (fun g t => addEdge g t.1 t.2.1 (relProps t.2.2)) g0

/-! ## The string filter-condition evaluators -/

/-- Body of `PatternPropertyExplorer._evaluate_filter` after the source
reassigns `filter_condition = filter_condition.strip().lower()`; `fc` is
that normalized condition.  The branch order of the source is kept:
`contains`, equality (entered when the condition starts with `"=="` OR
merely contains a `"="` character), then numeric comparison inside a
try/except whose fall-through returns `True`. -/
def evaluateFilterCore (value : PValue) (fc : List Char) : Bool :=
  if subIn "contains".data fc then
    match value with
    | .pstr s => subIn
        (lowerStr (pyStrip isQuote (pyStrip isSpace ((pySplit "contains".data fc).getD 1 []))))
        (lowerStr s.data)
    | _ => false
  else if "==".data.isPrefixOf fc || subIn "=".data fc then
    if pyIsDigit (pyStrip isQuote (pyStrip isSpace
        (pyReplace "=".data [] (pyReplace "==".data [] fc)))) then
      match pyFloatOfValue value with
      | some q => q == (digitsVal (pyStrip isQuote (pyStrip isSpace
          (pyReplace "=".data [] (pyReplace "==".data [] fc)))) : Rat)
      | none => false
    else decide (lowerStr (pyStr value) = lowerStr (pyStrip isQuote (pyStrip isSpace
        (pyReplace "=".data [] (pyReplace "==".data [] fc)))))
  else
    match pyFloatOfValue value with
    | none => false
    | some numericValue =>
      if fc.head? = some '>' then
        match pyFloat (pyStrip isSpace (fc.drop 1)) with
        | some threshold => decide (threshold < numericValue)
        | none => false
      else if fc.head? = some '<' then
        match pyFloat (pyStrip isSpace (fc.drop 1)) with
        | some threshold => decide (numericValue < threshold)
        | none => false
      else true

/-- Model of `PatternPropertyExplorer._evaluate_filter`
(`search_function.py`): an empty condition matches everything; otherwise
the condition is stripped, lowercased and dispatched. -/
def evaluateFilter (value : PValue) (filterCondition : List Char) : Bool :=
  if filterCondition.isEmpty then true
  else evaluateFilterCore value (lowerStr (pyStrip isSpace filterCondition))

/-- The numeric-comparison section of `parse_filter_condition`: the
`>`/`<`/`>=`/`<=` chain entered once `float(value_str)` succeeded, with
the trailing `return True` fall-through of the source. -/
def parseNumericSection (value : Rat) (fs : List Char) : Bool :=
  if subIn ">".data fs then
    match pyFloat (pyStrip isSpace ((pySplit ">".data fs).getD 1 [])) with
    | some threshold => decide (threshold < value)
    | none => false
  else if subIn "<".data fs then
    match pyFloat (pyStrip isSpace ((pySplit "<".data fs).getD 1 [])) with
    | some threshold => decide (value < threshold)
    | none => false
  else if subIn ">=".data fs then
    match pyFloat (pyStrip isSpace ((pySplit ">=".data fs).getD 1 [])) with
    | some threshold => decide (threshold ≤ value)
    | none => false
  else if subIn "<=".data fs then
    match pyFloat (pyStrip isSpace ((pySplit "<=".data fs).getD 1 [])) with
    | some threshold => decide (value ≤ threshold)
    | none => false
  else true

/-- Body of `parse_filter_condition` (`Project files/app.py`) after the
source reassigns `filter_str = filter_str.strip().lower()`; `fs` is that
normalized condition.  Branch order of the source: `contains`, equality
(entered only when the condition contains the two-character substring
`"=="`), then numeric comparisons `>`/`<`/`>=`/`<=` in that order inside
a try/except; the threshold of each comparison is segment 1 of splitting
the condition on the operator, stripped. -/
def parseFilterConditionCore (valueStr : PValue) (fs : List Char) : Bool :=
  if subIn "contains".data fs then
    match valueStr with
    | .pstr s => subIn
        (lowerStr (pyStrip isQuote (pyStrip isSpace ((pySplit "contains".data fs).getD 1 []))))
        (lowerStr s.data)
    | _ => false
  else if subIn "==".data fs then
    if pyIsDigit (pyStrip isQuote (pyStrip isSpace ((pySplit "==".data fs).getD 1 []))) then
      match pyFloatOfValue valueStr with
      | some q => q == (digitsVal (pyStrip isQuote (pyStrip isSpace
          ((pySplit "==".data fs).getD 1 []))) : Rat)
      | none => false
    else decide (lowerStr (pyStr valueStr) = lowerStr (pyStrip isQuote (pyStrip isSpace
        ((pySplit "==".data fs).getD 1 []))))
  else
    match pyFloatOfValue valueStr with
    | none => false
    | some value => parseNumericSection value fs

/-- Model of `parse_filter_condition` (`Project files/app.py`): the
condition is stripped, lowercased and dispatched. -/
def parseFilterCondition (valueStr : PValue) (filterStr : List Char) : Bool :=
  parseFilterConditionCore valueStr (lowerStr (pyStrip isSpace filterStr))

/-! ## Sequential property filtering (`PatternPropertyExplorer._apply_filter`) -/

/-- One filter of the pattern property explorer: a node type, a property
name and a free-text condition. -/
structure ExplorerFilter : Type where
  nodeType : String
  propertyName : String
  condition : List Char

/-- Match test of `_apply_filter` for one node: the node's primary type
equals the filter's type, the selected property is present and not
`None`, and the condition evaluates to true on its value. -/
def explorerMatches (pdataNodes : List (String × RawNode)) (f : ExplorerFilter)
    (id : String) : Bool :=
  match dictGet? pdataNodes id with
  | some info =>
    rawNodeType info == f.nodeType &&
      (match dictGet? info.properties f.propertyName with
       | some .pnull => false
       | some v => evaluateFilter v f.condition
       | none => false)
  | none => false

/-- Color list `_apply_filter` writes: gold for matches, gray otherwise,
computed from the pattern data alone — the previous colors are not
consulted. -/
def explorerColors (pdataNodes : List (String × RawNode)) (nodeIds : List String)
    (f : ExplorerFilter) : List String :=
  nodeIds.map (fun id => if explorerMatches pdataNodes f id then "#FFD700" else "#CCCCCC")

/-- The explorer's mutable state: the immutable pattern data and node
order, plus the renderer color list the filter overwrites. -/
structure ExplorerState : Type where
  pdataNodes : List (String × RawNode)
  nodeIds : List String
  colors : List String

/-- State effect of one `_apply_filter` call. -/
def applyFilterState (s : ExplorerState) (f : ExplorerFilter) : ExplorerState :=
  { s with colors := explorerColors s.pdataNodes s.nodeIds f }

/-- Applying a sequence of filters, one `_apply_filter` call per filter. -/
def applyAll (s : ExplorerState) (fs : List ExplorerFilter) : ExplorerState :=
  fs.foldl applyFilterState s

/-! ## Concrete instances used by counterexamples and witnesses -/

/-- Two nodes of type `X` joined by an `R` relationship. -/
def twoXPayload : GraphData :=
  ⟨[("n1", ⟨["X"], []⟩), ("n2", ⟨["X"], []⟩)], [("r1", ⟨"R", [], "n1", "n2"⟩)]⟩

/-- One node of type `X` and no relationships. -/
def loneXPayload : GraphData := ⟨[("a", ⟨["X"], []⟩)], []⟩

/-- A payload whose only relationship references the absent node id `n2`. -/
def danglingPayload : GraphData :=
  ⟨[("n1", ⟨["X"], []⟩)], [("r1", ⟨"R", [], "n1", "n2"⟩)]⟩

/-- Two parallel relationships of different types and different ids
between the same ordered node pair. -/
def parallelPayload : GraphData :=
  ⟨[("n1", ⟨["X"], []⟩), ("n2", ⟨["X"], []⟩)],
   [("r1", ⟨"R", [], "n1", "n2"⟩), ("r2", ⟨"S", [], "n1", "n2"⟩)]⟩

/-- A node labeled `Movie` carrying a property named `type`. -/
def overridePayload : GraphData :=
  ⟨[("n1", ⟨["Movie"], [("type", .pstr "Hacked")]⟩)], []⟩

/-- A node whose properties override both `label` and `type` with
boolean values, leaving it with no string attribute at all. -/
def boolOnlyPayload : GraphData :=
  ⟨[("n1", ⟨["X"], [("label", .pbool true), ("type", .pbool true)]⟩)], []⟩

/-- A small movie-style payload used by witnesses. -/
def samplePayload : GraphData :=
  ⟨[("m1", ⟨["Movie"], [("title", .pstr "Heat")]⟩), ("p1", ⟨["Person"], []⟩)],
   [("r1", ⟨"ACTED_IN", [], "p1", "m1"⟩)]⟩

/-- Explorer state over a single type-`X` node with property `p = 1`. -/
def oneNodeExplorerState : ExplorerState :=
  ⟨[("a", ⟨["X"], [("p", .pint 1)]⟩)], ["a"], ["#CCCCCC"]⟩

/-- A filter the single node of `oneNodeExplorerState` satisfies. -/
def filterHitX : ExplorerFilter := ⟨"X", "p", "> 0".data⟩

/-- A filter the single node of `oneNodeExplorerState` fails (wrong type). -/
def filterMissY : ExplorerFilter := ⟨"Y", "p", "> 0".data⟩

/-- The decimal digit characters; a threshold literal is a non-empty
list of these. -/
def digitChars : List Char := "0123456789".data

/-- The value kinds the claim under §C8 names: string, integer or float
— deliberately NOT including booleans, which is where it diverges from
the code's `isinstance(value, (str, int, float))` test. -/
def specSearchKind : PValue → Bool
  | .pstr _ => true
  | .pint _ => true
  | .pnum _ => true
  | _ => false

/-! ## Helper lemmas -/

theorem histTotal_nil : histTotal [] = 0 := rfl

theorem histTotal_bump (beq : PValue → PValue → Bool) (d : List (PValue × Nat)) (k : PValue) :
    histTotal (bump beq d k) = histTotal d + 1 := by
  induction d with
  | nil => rfl
  | cons p r ih =>
    by_cases h : beq p.1 k
    · simp [bump, h, histTotal]
      omega
    · simp [bump, h, histTotal] at ih ⊢
      omega

theorem histTotal_foldl_bump {α : Type} (f : α → PValue) (l : List α)
    (d : List (PValue × Nat)) :
    histTotal (l.foldl (fun d a => bump pvBeq d (f a)) d) = histTotal d + l.length := by
  induction l generalizing d with
  | nil => rfl
  | cons a t ih =>
    simp only [List.foldl_cons, List.length_cons, ih, histTotal_bump]
    omega

theorem foldl_highlight_graph (terms : List (List Char)) (s : PlotterState) :
    (terms.foldl highlightState s).graph = s.graph := by
  induction terms generalizing s with
  | nil => rfl
  | cons t r ih => simpa [highlightState] using ih _

theorem applyAll_pdataNodes (fs : List ExplorerFilter) (s : ExplorerState) :
    (applyAll s fs).pdataNodes = s.pdataNodes ∧ (applyAll s fs).nodeIds = s.nodeIds := by
  induction fs generalizing s with
  | nil => exact ⟨rfl, rfl⟩
  | cons f r ih => simpa [applyAll, applyFilterState] using ih _

/-! ## Claim C7 -/

/-- Claim C7: for every graph, the per-type node histogram counts of
`get_graph_statistics` sum to `total_nodes`, and the per-type
relationship histogram counts sum to `total_edges` — each node and each
edge contributes exactly once to its histogram. -/
theorem c7_statistics_histograms_sum (g : Digraph) :
    histTotal (getGraphStatistics g).node_types = (getGraphStatistics g).total_nodes
      ∧ histTotal (getGraphStatistics g).edge_types = (getGraphStatistics g).total_edges := by
  refine ⟨?_, ?_⟩
  · simpa [getGraphStatistics, nodeTypeHistogram, histTotal_nil] using
      histTotal_foldl_bump (fun p => ((dictGet? p.2 "type").getD (.pstr "Unknown"))) g.nodes []
  · simpa [getGraphStatistics, edgeTypeHistogram, histTotal_nil] using
      histTotal_foldl_bump (fun p => ((dictGet? p.2 "type").getD (.pstr "Unknown"))) g.edges []

/-! ## Claim C9 -/

/-- Claim C9: after any sequence of highlight operations,
`reset_node_colors` restores exactly the type-based styling colors that
`_get_node_styling` computes on the untouched graph — highlighting never
mutates the graph, and reset recomputes styling from node types alone.
The hypothesis restricts to graphs on which the styling code is
exception-free (string-valued `type` attributes). -/
theorem c9_reset_restores_styling (g : Digraph) (colors0 : List String)
    (terms : List (List Char)) (hg : stylingDefined g = true) :
    (resetNodeColors (terms.foldl highlightState ⟨g, colors0⟩)).colors
      = (getNodeStyling g).1 := by
  have hgr : (terms.foldl highlightState ⟨g, colors0⟩).graph = g :=
    foldl_highlight_graph terms ⟨g, colors0⟩
  simp [resetNodeColors, hgr]

/-- Witness for C9 at a concrete graph, highlight sequence and initial
colors. -/
theorem c9_reset_restores_styling_witness :
    stylingDefined (buildGraph samplePayload) = true
      ∧ (resetNodeColors ([['h'], ['x']].foldl highlightState
            ⟨buildGraph samplePayload, []⟩)).colors
          = (getNodeStyling (buildGraph samplePayload)).1 :=
  ⟨by decide, c9_reset_restores_styling (buildGraph samplePayload) [] [['h'], ['x']] (by decide)⟩

/-! ## Claim C6 -/

/-- Counterexample for claim C6: a one-node pattern with a filter its
node satisfies and one it fails.  Applying the sequence in the two
orders yields different final color states, refuting order-independence
of filter composition. -/
theorem c6_order_dependence_counterexample :
    (applyAll oneNodeExplorerState [filterHitX, filterMissY]).colors = ["#CCCCCC"]
      ∧ (applyAll oneNodeExplorerState [filterMissY, filterHitX]).colors = ["#FFD700"]
      ∧ ¬((applyAll oneNodeExplorerState [filterHitX, filterMissY]).colors
            = (applyAll oneNodeExplorerState [filterMissY, filterHitX]).colors) := by
  refine ⟨by decide, by decide, by decide⟩

/-- Claim C6 amended: applying a sequence of filters is last-writer-wins
— each `_apply_filter` call recomputes the node colors from the pattern
data alone, overwriting the previous result, so a sequence ends in the
state of its last filter alone.  In particular `[f1, f2]` yields the
state of `f2` alone and `[f2, f1]` that of `f1` alone; the two orders
agree only when the two filters produce identical results, so
composition is not order-independent. -/
theorem c6_filter_sequence_last_writer_wins (s : ExplorerState) (f1 f2 : ExplorerFilter) :
    applyAll s [f1, f2] = applyFilterState s f2
      ∧ applyAll s [f2, f1] = applyFilterState s f1
      ∧ ∀ (fs : List ExplorerFilter) (f : ExplorerFilter),
          (applyAll s (fs ++ [f])).colors = (applyFilterState s f).colors := by
  refine ⟨rfl, rfl, ?_⟩
  intro fs f
  have h := applyAll_pdataNodes fs s
  simp [applyAll, applyFilterState, explorerColors] at h ⊢
  rw [h.1, h.2]


theorem findKey_append_single {κ α : Type} [BEq κ] (d : List (κ × α)) (k : κ) (a : α)
    (x : κ) :
    (((d ++ [(k, a)]).find? (fun p => p.1 == x)).isSome)
      = (((d.find? (fun p => p.1 == x)).isSome) || k == x) := by
  induction d with
  | nil => cases h : k == x <;> simp [List.find?, h]
  | cons p r ih =>
    by_cases h : p.1 == x
    · simp [List.find?, h]
    · simpa [List.find?, h] using ih

theorem findKey_map_keyfix {κ α : Type} [BEq κ] (d : List (κ × α)) (F : κ × α → κ × α)
    (hF : ∀ p, (F p).1 = p.1) (x : κ) :
    (((d.map F).find? (fun p => p.1 == x)).isSome)
      = ((d.find? (fun p => p.1 == x)).isSome) := by
  induction d with
  | nil => rfl
  | cons p r ih =>
    by_cases h : p.1 == x
    · simp [List.find?, hF, h]
    · simpa [List.find?, hF, h] using ih

theorem dictHas_addNode (g : Digraph) (id : String) (a : List (String × PValue))
    (x : String) :
    dictHas (addNode g id a).nodes x = (dictHas g.nodes x || id == x) := by
  by_cases h : dictHas g.nodes id
  · simp only [addNode, h, if_true]
    rw [show dictHas
        (g.nodes.map (fun p => if p.1 == id then (p.1, dictUpdate p.2 a) else p)) x
        = dictHas g.nodes x from
      findKey_map_keyfix g.nodes _ (by
        intro p
        by_cases hp : p.1 == id <;> simp [hp]) x]
    by_cases hx : id == x
    · have hid : id = x := by simpa using hx
      subst hid
      simp [h, hx]
    · simp [hx]
  · simp only [addNode, h, if_false]
    exact findKey_append_single g.nodes id a x

theorem edgeHas_addEdge (g : Digraph) (u v : String) (a : List (String × PValue))
    (x : String × String) :
    edgeHas (addEdge g u v a).edges x = (edgeHas g.edges x || (u, v) == x) := by
  by_cases h : edgeHas g.edges (u, v)
  · simp only [addEdge, h, if_true]
    rw [show edgeHas
        (g.edges.map (fun p => if p.1 == (u, v) then (p.1, dictUpdate p.2 a) else p)) x
        = edgeHas g.edges x from
      findKey_map_keyfix g.edges _ (by
        intro p
        by_cases hp : p.1 == (u, v) <;> simp [hp]) x]
    by_cases hx : (u, v) == x
    · have hk : (u, v) = x := by simpa using hx
      subst hk
      simp [h, hx]
    · simp [hx]
  · simp only [addEdge, h, if_false]
    exact findKey_append_single g.edges (u, v) a x

theorem dictHas_addEdge_nodes (g : Digraph) (u v : String) (a : List (String × PValue))
    (x : String) :
    dictHas (addEdge g u v a).nodes x = (dictHas g.nodes x || u == x || v == x) := by
  have hpad : ∀ (d : List (String × List (String × PValue))) (id : String),
      dictHas (if dictHas d id then d else d ++ [(id, [])]) x = (dictHas d x || id == x) := by
    intro d id
    by_cases h : dictHas d id
    · simp only [h, if_true]
      by_cases hx : id == x
      · have hid : id = x := by simpa using hx
        subst hid
        simp [h, hx]
      · simp [hx]
    · simp only [h, if_false]
      exact findKey_append_single d id [] x
  simp only [addEdge]
  rw [hpad _ v, hpad g.nodes u, Bool.or_assoc]

theorem foldl_addEdge_nodes_mono (l : List (String × RawRel)) (g : Digraph) (x : String)
    (h : dictHas g.nodes x = true) :
    dictHas ((l.foldl (fun g p => addEdge g p.2.start_node p.2.end_node (relProps p.2)) g)).nodes
      x = true := by
  induction l generalizing g with
  | nil => exact h
  | cons q r ih =>
    refine ih _ ?_
    rw [dictHas_addEdge_nodes]
    simp [h]

theorem foldl_addEdge_edges_mono (l : List (String × RawRel)) (g : Digraph)
    (k : String × String) (h : edgeHas g.edges k = true) :
    edgeHas ((l.foldl (fun g p => addEdge g p.2.start_node p.2.end_node (relProps p.2)) g)).edges
      k = true := by
  induction l generalizing g with
  | nil => exact h
  | cons q r ih =>
    refine ih _ ?_
    rw [edgeHas_addEdge]
    simp [h]

theorem mem_foldl_addEdge (l : List (String × RawRel)) (g : Digraph)
    (p : String × RawRel) (hp : p ∈ l) :
    dictHas ((l.foldl (fun g p => addEdge g p.2.start_node p.2.end_node (relProps p.2)) g)).nodes
        p.2.start_node = true
      ∧ dictHas ((l.foldl (fun g p => addEdge g p.2.start_node p.2.end_node (relProps p.2)) g)).nodes
          p.2.end_node = true
      ∧ edgeHas ((l.foldl (fun g p => addEdge g p.2.start_node p.2.end_node (relProps p.2)) g)).edges
          (p.2.start_node, p.2.end_node) = true := by
  induction l generalizing g with
  | nil => cases hp
  | cons q r ih =>
    rcases List.mem_cons.mp hp with rfl | hmem
    · refine ⟨foldl_addEdge_nodes_mono r _ _ ?_, foldl_addEdge_nodes_mono r _ _ ?_,
        foldl_addEdge_edges_mono r _ _ ?_⟩
      · rw [dictHas_addEdge_nodes]
        simp
      · rw [dictHas_addEdge_nodes]
        simp
      · rw [edgeHas_addEdge]
        simp
    · exact ih _ hmem

theorem foldl_addNode_mono (l : List (String × RawNode)) (g : Digraph) (x : String)
    (h : dictHas g.nodes x = true) :
    dictHas ((l.foldl (fun g p => addNode g p.1 (nodeProps p.2)) g)).nodes x = true := by
  induction l generalizing g with
  | nil => exact h
  | cons q r ih =>
    refine ih _ ?_
    rw [dictHas_addNode]
    simp [h]

theorem mem_foldl_addNode (l : List (String × RawNode)) (g : Digraph)
    (p : String × RawNode) (hp : p ∈ l) :
    dictHas ((l.foldl (fun g p => addNode g p.1 (nodeProps p.2)) g)).nodes p.1 = true := by
  induction l generalizing g with
  | nil => cases hp
  | cons q r ih =>
    rcases List.mem_cons.mp hp with rfl | hmem
    · refine foldl_addNode_mono r _ _ ?_
      rw [dictHas_addNode]
      simp
    · exact ih _ hmem

theorem addNode_edges (g : Digraph) (id : String) (a : List (String × PValue)) :
    (addNode g id a).edges = g.edges := by
  by_cases h : dictHas g.nodes id <;> simp [addNode, h]

theorem foldl_addNode_edges (l : List (String × RawNode)) (g : Digraph) :
    ((l.foldl (fun g p => addNode g p.1 (nodeProps p.2)) g)).edges = g.edges := by
  induction l generalizing g with
  | nil => rfl
  | cons q r ih => exact (ih (addNode g q.1 (nodeProps q.2))).trans (addNode_edges g q.1 (nodeProps q.2))

theorem edgeHas_false_not_mem (es : List ((String × String) × List (String × PValue)))
    (k : String × String) (h : edgeHas es k = false) :
    k ∉ es.map (fun p => p.1) := by
  induction es with
  | nil => simp
  | cons p r ih =>
    simp only [edgeHas, List.find?] at h
    cases hk : p.1 == k with
    | true => simp [hk] at h
    | false =>
      simp only [hk] at h
      have hne : p.1 ≠ k := by
        intro he
        simp [he] at hk
      simp only [List.map_cons, List.mem_cons, not_or]
      exact ⟨fun he2 => hne he2.symm, ih h⟩

theorem edges_keys_nodup_addEdge (g : Digraph) (u v : String)
    (a : List (String × PValue))
    (h : ((g.edges.map (fun p => p.1)).Nodup)) :
    (((addEdge g u v a).edges.map (fun p => p.1)).Nodup) := by
  by_cases he : edgeHas g.edges (u, v)
  · have : (addEdge g u v a).edges
        = g.edges.map (fun p => if p.1 == (u, v) then (p.1, dictUpdate p.2 a) else p) := by
      simp [addEdge, he]
    rw [this, List.map_map]
    have hfun : ((fun p => p.1) ∘
        (fun (p : (String × String) × List (String × PValue)) =>
          if p.1 == (u, v) then (p.1, dictUpdate p.2 a) else p))
        = (fun p => p.1) := by
      funext p
      simp only [Function.comp]
      split <;> rfl
    rw [hfun]
    exact h
  · have : (addEdge g u v a).edges = g.edges ++ [((u, v), a)] := by
      simp [addEdge, he]
    rw [this]
    simp only [List.map_append, List.map_cons, List.map_nil]
    refine List.Nodup.append h (List.nodup_singleton _) ?_
    intro x hx hy
    simp only [List.mem_singleton] at hy
    subst hy
    exact edgeHas_false_not_mem g.edges (u, v) (by simpa using he) hx

theorem edges_keys_nodup_build (gd : GraphData) :
    (((buildGraph gd).edges.map (fun p => p.1)).Nodup) := by
  show (((gd.relationships.foldl
      (fun g p => addEdge g p.2.start_node p.2.end_node (relProps p.2))
      (gd.nodes.foldl (fun g p => addNode g p.1 (nodeProps p.2)) Digraph.empty)).edges.map
        (fun p => p.1)).Nodup)
  have h0 : (((gd.nodes.foldl (fun g p => addNode g p.1 (nodeProps p.2))
      Digraph.empty)).edges.map (fun p => p.1)).Nodup := by
    rw [foldl_addNode_edges]
    exact List.nodup_nil
  generalize (gd.nodes.foldl (fun g p => addNode g p.1 (nodeProps p.2)) Digraph.empty) = g at h0 ⊢
  induction gd.relationships generalizing g with
  | nil => exact h0
  | cons q r ih => exact ih _ (edges_keys_nodup_addEdge _ _ _ _ h0)

/-! ## Claim C3 -/

/-- Counterexample for claim C3: on a payload whose only relationship
references the absent node id `n2`, the build does not fail — the
dangling endpoint is silently materialized as an attribute-less node and
the edge is added to the graph.  There is no DanglingEdge (or any other)
load error anywhere in the build path. -/
theorem c3_dangling_edge_materialized_counterexample :
    nodeAttrs? (buildGraph danglingPayload) "n2" = some []
      ∧ edgeHas (buildGraph danglingPayload).edges ("n1", "n2") = true :=
  ⟨rfl, rfl⟩

/-- Claim C3 amended: for every payload and every relationship in it —
dangling or not — the build succeeds unconditionally: both endpoint ids
are present as nodes of the built graph (NetworkX `add_edge` silently
creates missing endpoints) and the edge keyed by the (source, target)
pair is present.  No error is raised and no payload is rejected. -/
theorem c3_build_never_fails_materializes (gd : GraphData) :
    ∀ p ∈ gd.relationships,
      dictHas (buildGraph gd).nodes p.2.start_node = true
        ∧ dictHas (buildGraph gd).nodes p.2.end_node = true
        ∧ edgeHas (buildGraph gd).edges (p.2.start_node, p.2.end_node) = true := by
  intro p hp
  exact mem_foldl_addEdge gd.relationships _ p hp

/-- Witness for the amended C3 at the dangling payload. -/
theorem c3_build_never_fails_materializes_witness :
    dictHas (buildGraph danglingPayload).nodes "n2" = true
      ∧ edgeHas (buildGraph danglingPayload).edges ("n1", "n2") = true := by
  have h := c3_build_never_fails_materializes danglingPayload
    ("r1", ⟨"R", [], "n1", "n2"⟩) (List.mem_singleton.mpr rfl)
  exact ⟨h.2.1, h.2.2⟩

/-! ## Claim C4 -/

/-- Counterexample for claim C4: a valid payload with two relationships
(distinct ids `r1`, `r2`, distinct types `R`, `S`) between the same
ordered node pair builds to a graph with a single edge — the DiGraph is
keyed by the (source, target) pair, the second relationship merely
updates the first edge's attributes (its `type` ends up `S`), and edge
ids are not stored at all, so multigraph semantics fails. -/
theorem c4_parallel_edges_collapse_counterexample :
    (buildGraph parallelPayload).edges = [(("n1", "n2"), [("type", .pstr "S")])]
      ∧ parallelPayload.relationships.length = 2 :=
  ⟨rfl, rfl⟩

/-- Claim C4 amended: for every payload the build succeeds, every input
node id is present in the built graph, and every relationship is
represented by the edge keyed by its (source, target) pair; but edges
are keyed by that pair only — each ordered pair carries at most one
edge, so parallel relationships collapse (the later one overwrites the
shared edge's attributes) and input edge ids are not retrievable. -/
theorem c4_build_simple_digraph (gd : GraphData) :
    (∀ p ∈ gd.nodes, dictHas (buildGraph gd).nodes p.1 = true)
      ∧ (∀ p ∈ gd.relationships,
          edgeHas (buildGraph gd).edges (p.2.start_node, p.2.end_node) = true)
      ∧ (((buildGraph gd).edges.map (fun p => p.1)).Nodup) := by
  refine ⟨?_, ?_, edges_keys_nodup_build gd⟩
  · intro p hp
    exact foldl_addEdge_nodes_mono gd.relationships _ _ (mem_foldl_addNode gd.nodes _ p hp)
  · intro p hp
    exact (mem_foldl_addEdge gd.relationships _ p hp).2.2

/-- Witness for the amended C4 at the parallel-edge payload. -/
theorem c4_build_simple_digraph_witness :
    dictHas (buildGraph parallelPayload).nodes "n1" = true
      ∧ edgeHas (buildGraph parallelPayload).edges ("n1", "n2") = true := by
  refine ⟨(c4_build_simple_digraph parallelPayload).1 ("n1", ⟨["X"], []⟩) ?_,
    (c4_build_simple_digraph parallelPayload).2.1 ("r1", ⟨"R", [], "n1", "n2"⟩) ?_⟩
  · exact List.mem_cons_self _ _
  · exact List.mem_cons_self _ _

theorem dictGet?_dictSet_self {α : Type} (d : List (String × α)) (k : String) (v : α) :
    dictGet? (dictSet d k v) k = some v := by
  induction d with
  | nil => simp [dictSet, dictGet?, List.find?]
  | cons p r ih =>
    by_cases h : p.1 == k
    · simp [dictSet, dictGet?, List.find?, h]
    · simpa [dictSet, dictGet?, List.find?, h] using ih

theorem dictGet?_dictSet_ne {α : Type} (d : List (String × α)) (kk : String) (v : α)
    (x : String) (h : (kk == x) = false) :
    dictGet? (dictSet d kk v) x = dictGet? d x := by
  induction d with
  | nil => simp [dictSet, dictGet?, List.find?, h]
  | cons p r ih =>
    by_cases hp : p.1 == kk
    · have hpk : p.1 = kk := by simpa using hp
      have hpx : (p.1 == x) = false := by
        rw [hpk]
        exact h
      simp [dictSet, dictGet?, List.find?, hp, hpx, h]
    · by_cases hx : p.1 == x
      · simp [dictSet, dictGet?, List.find?, hp, hx]
      · simpa [dictSet, dictGet?, List.find?, hp, hx] using ih

theorem dictGet?_dictUpdate_not_mem {α : Type} (new d : List (String × α)) (k : String)
    (h : k ∉ new.map (fun p => p.1)) :
    dictGet? (dictUpdate d new) k = dictGet? d k := by
  induction new generalizing d with
  | nil => rfl
  | cons q r ih =>
    simp only [List.map_cons, List.mem_cons, not_or] at h
    have : dictGet? (dictUpdate (dictSet d q.1 q.2) r) k
        = dictGet? (dictSet d q.1 q.2) k := ih _ h.2
    calc dictGet? (dictUpdate d (q :: r)) k
        = dictGet? (dictUpdate (dictSet d q.1 q.2) r) k := rfl
      _ = dictGet? (dictSet d q.1 q.2) k := this
      _ = dictGet? d k := dictGet?_dictSet_ne d q.1 q.2 k (by
            simp only [beq_eq_false_iff_ne, ne_eq]
            exact fun he => h.1 he.symm)

theorem dictGet?_dictUpdate {α : Type} (d new : List (String × α)) (k : String)
    (h : (new.map (fun p => p.1)).Nodup) :
    dictGet? (dictUpdate d new) k
      = match dictGet? new k with
        | some v => some v
        | none => dictGet? d k := by
  induction new generalizing d with
  | nil => rfl
  | cons q r ih =>
    simp only [List.map_cons, List.nodup_cons] at h
    cases hk : q.1 == k with
    | true =>
      have hqk : q.1 = k := by simpa using hk
      have hnotmem : k ∉ r.map (fun p => p.1) := by
        rw [← hqk]
        exact h.1
      have h1 : dictGet? (dictUpdate (dictSet d q.1 q.2) r) k
          = dictGet? (dictSet d q.1 q.2) k := dictGet?_dictUpdate_not_mem r _ k hnotmem
      have h2 : dictGet? (dictSet d q.1 q.2) k = some q.2 := by
        rw [hqk]
        exact dictGet?_dictSet_self d k q.2
      have h3 : dictGet? (q :: r) k = some q.2 := by
        simp [dictGet?, List.find?, hk]
      rw [h3]
      exact h1.trans h2
    | false =>
      have h3 : dictGet? (q :: r) k = dictGet? r k := by
        simp [dictGet?, List.find?, hk]
      rw [h3, ← dictGet?_dictSet_ne d q.1 q.2 k hk]
      exact ih _ h.2

theorem dictGet?_append_single_self {α : Type} (d : List (String × α)) (id : String)
    (a : α) (h : dictHas d id = false) :
    dictGet? (d ++ [(id, a)]) id = some a := by
  induction d with
  | nil => simp [dictGet?, List.find?]
  | cons p r ih =>
    cases hp : p.1 == id with
    | true => simp [dictHas, List.find?, hp] at h
    | false =>
      have h' : dictHas r id = false := by
        simpa [dictHas, List.find?, hp] using h
      simpa [dictGet?, List.find?, hp] using ih h'

theorem dictGet?_append_single_ne {α : Type} (d : List (String × α)) (id : String)
    (a : α) (x : String) (h : (id == x) = false) :
    dictGet? (d ++ [(id, a)]) x = dictGet? d x := by
  induction d with
  | nil => simp [dictGet?, List.find?, h]
  | cons p r ih =>
    cases hp : p.1 == x with
    | true => simp [dictGet?, List.find?, hp]
    | false => simpa [dictGet?, List.find?, hp] using ih

theorem dictGet?_mapUpdate_ne {α : Type} (d : List (String × α)) (kk : String)
    (f : α → α) (x : String) (hne : (kk == x) = false) :
    dictGet? (d.map (fun p => if p.1 == kk then (p.1, f p.2) else p)) x
      = dictGet? d x := by
  induction d with
  | nil => rfl
  | cons p r ih =>
    cases hx : p.1 == x with
    | true =>
      have hpx : p.1 = x := by simpa using hx
      have hpk : (p.1 == kk) = false := by
        cases hq : p.1 == kk with
        | false => rfl
        | true =>
          exfalso
          have h1 : p.1 = kk := by simpa using hq
          have hkx : kk = x := by
            rw [← h1]
            exact hpx
          rw [hkx] at hne
          simp at hne
      simp [dictGet?, List.find?, hpk, hx]
    | false =>
      cases hpk : p.1 == kk with
      | true => simpa [dictGet?, List.find?, hpk, hx] using ih
      | false => simpa [dictGet?, List.find?, hpk, hx] using ih

theorem addNode_lookup_new (g : Digraph) (id : String) (a : List (String × PValue))
    (h : dictHas g.nodes id = false) :
    nodeAttrs? (addNode g id a) id = some a := by
  simp only [addNode, h, Bool.false_eq_true, if_false]
  exact dictGet?_append_single_self g.nodes id a h

theorem addNode_lookup_keeps (g : Digraph) (id : String) (a : List (String × PValue))
    (x : String) (h : (id == x) = false) :
    nodeAttrs? (addNode g id a) x = nodeAttrs? g x := by
  by_cases hid : dictHas g.nodes id
  · simp only [addNode, hid, if_true]
    exact dictGet?_mapUpdate_ne g.nodes id (fun q => dictUpdate q a) x h
  · simp only [addNode, hid, if_false]
    exact dictGet?_append_single_ne g.nodes id a x h

theorem dictGet?_append_of_isSome {α : Type} (d d2 : List (String × α)) (x : String)
    (h : (dictGet? d x).isSome = true) :
    dictGet? (d ++ d2) x = dictGet? d x := by
  induction d with
  | nil => simp [dictGet?] at h
  | cons p r ih =>
    cases hp : p.1 == x with
    | true => simp [dictGet?, List.find?, hp]
    | false =>
      have h' : (dictGet? r x).isSome = true := by
        simpa [dictGet?, List.find?, hp] using h
      simpa [dictGet?, List.find?, hp] using ih h'

theorem addEdge_nodeAttrs (g : Digraph) (u v : String) (a : List (String × PValue))
    (x : String) (h : (nodeAttrs? g x).isSome = true) :
    nodeAttrs? (addEdge g u v a) x = nodeAttrs? g x := by
  have step : ∀ (d : List (String × List (String × PValue))) (id : String),
      ((dictGet? d x).isSome = true) →
        dictGet? (if dictHas d id then d else d ++ [(id, [])]) x = dictGet? d x := by
    intro d id hd
    by_cases hid : dictHas d id
    · simp [hid]
    · simp only [hid, Bool.false_eq_true, if_false]
      exact dictGet?_append_of_isSome d [(id, [])] x hd
  have h0 := step g.nodes u h
  have h1 : (dictGet? (if dictHas g.nodes u then g.nodes else g.nodes ++ [(u, [])]) x).isSome
      = true := by
    rw [h0]
    exact h
  have h2 := step (if dictHas g.nodes u then g.nodes else g.nodes ++ [(u, [])]) v h1
  show dictGet? (if dictHas (if dictHas g.nodes u then g.nodes
      else g.nodes ++ [(u, [])]) v then (if dictHas g.nodes u then g.nodes
      else g.nodes ++ [(u, [])]) else (if dictHas g.nodes u then g.nodes
      else g.nodes ++ [(u, [])]) ++ [(v, [])]) x = dictGet? g.nodes x
  rw [h2, h0]

theorem foldl_addEdge_nodeAttrs (l : List (String × RawRel)) (g : Digraph) (x : String)
    (h : (nodeAttrs? g x).isSome = true) :
    nodeAttrs? ((l.foldl (fun g p => addEdge g p.2.start_node p.2.end_node (relProps p.2)) g)) x
      = nodeAttrs? g x := by
  induction l generalizing g with
  | nil => rfl
  | cons q r ih =>
    have hstep := addEdge_nodeAttrs g q.2.start_node q.2.end_node (relProps q.2) x h
    have h' : (nodeAttrs? (addEdge g q.2.start_node q.2.end_node (relProps q.2)) x).isSome
        = true := by
      rw [hstep]
      exact h
    exact (ih _ h').trans hstep

theorem foldl_addNode_keeps (l : List (String × RawNode)) (g : Digraph) (x : String)
    (h : ∀ p ∈ l, (p.1 == x) = false) :
    nodeAttrs? ((l.foldl (fun g p => addNode g p.1 (nodeProps p.2)) g)) x
      = nodeAttrs? g x := by
  induction l generalizing g with
  | nil => rfl
  | cons q r ih =>
    have hq := h q (List.mem_cons_self _ _)
    exact (ih _ (fun p hp => h p (List.mem_cons_of_mem _ hp))).trans
      (addNode_lookup_keeps g q.1 (nodeProps q.2) x hq)

theorem foldl_addNode_lookup (l : List (String × RawNode)) (g : Digraph)
    (hnodup : (l.map (fun p => p.1)).Nodup)
    (hfresh : ∀ k ∈ l.map (fun p => p.1), dictHas g.nodes k = false)
    (id : String) (info : RawNode) (hmem : (id, info) ∈ l) :
    nodeAttrs? (l.foldl (fun g p => addNode g p.1 (nodeProps p.2)) g) id
      = some (nodeProps info) := by
  induction l generalizing g with
  | nil => cases hmem
  | cons q r ih =>
    simp only [List.map_cons, List.nodup_cons] at hnodup
    rcases List.mem_cons.mp hmem with heq | hmem'
    · have hq1 : q.1 = id := by rw [← heq]
      have hq2 : q.2 = info := by rw [← heq]
      have hkeeps : ∀ p ∈ r, (p.1 == id) = false := by
        intro p hp
        have : p.1 ∈ r.map (fun p => p.1) := List.mem_map_of_mem _ hp
        have hne : p.1 ≠ q.1 := fun he => hnodup.1 (he ▸ this)
        simp only [beq_eq_false_iff_ne, ne_eq]
        rw [← hq1]
        exact hne
      have hnew : nodeAttrs? (addNode g q.1 (nodeProps q.2)) id = some (nodeProps info) := by
        rw [hq1, hq2]
        exact addNode_lookup_new g id (nodeProps info)
          (hfresh id (by rw [← hq1]; exact List.mem_map_of_mem _ (List.mem_cons_self q r)))
      exact (foldl_addNode_keeps r _ id hkeeps).trans hnew
    · refine ih _ hnodup.2 ?_ hmem'
      intro k hk
      rw [dictHas_addNode]
      have h1 : dictHas g.nodes k = false :=
        hfresh k (List.mem_cons_of_mem _ hk)
      have h2 : (q.1 == k) = false := by
        simp only [beq_eq_false_iff_ne, ne_eq]
        exact fun he => hnodup.1 (he ▸ hk)
      rw [h1, h2]
      rfl

/-! ## Claim C5 -/

/-- Counterexample for claim C5: a node whose label list is
`["Movie"]` but whose property map carries `type = "Hacked"` ends up
with canonical type `"Hacked"` in the built graph — the build merges
the node's property map on top of the derived `type` attribute, so a
property named `type` overrides the label-derived discriminator. -/
theorem c5_property_overrides_type_counterexample :
    nodeTypeOf (buildGraph overridePayload) "n1" = .pstr "Hacked"
      ∧ rawNodeType ⟨["Movie"], [("type", .pstr "Hacked")]⟩ = "Movie" :=
  ⟨rfl, rfl⟩

/-- Claim C5 amended: in a built graph (payload node ids and property
keys unique, as Python dicts guarantee), a node's canonical type
attribute equals the value of its property named `type` when that
property exists, and only otherwise equals `labels[0]` (or `"Unknown"`
for an empty label list) — the discriminator CAN be overridden by a
node property named `type`. -/
theorem c5_node_type_attribute (gd : GraphData)
    (hnodup : (gd.nodes.map (fun p => p.1)).Nodup)
    (id : String) (info : RawNode) (hmem : (id, info) ∈ gd.nodes)
    (hprops : (info.properties.map (fun p => p.1)).Nodup) :
    nodeTypeOf (buildGraph gd) id
      = match dictGet? info.properties "type" with
        | some v => v
        | none => .pstr (rawNodeType info) := by
  have hfresh : ∀ k ∈ gd.nodes.map (fun p => p.1),
      dictHas (Digraph.empty).nodes k = false := by
    intro k _
    rfl
  have hphase1 : nodeAttrs? (gd.nodes.foldl (fun g p => addNode g p.1 (nodeProps p.2))
      Digraph.empty) id = some (nodeProps info) :=
    foldl_addNode_lookup gd.nodes Digraph.empty hnodup hfresh id info hmem
  have hsome : (nodeAttrs? (gd.nodes.foldl (fun g p => addNode g p.1 (nodeProps p.2))
      Digraph.empty) id).isSome = true := by
    rw [hphase1]
    rfl
  have hphase2 : nodeAttrs? (buildGraph gd) id = some (nodeProps info) := by
    show nodeAttrs? (gd.relationships.foldl
        (fun g p => addEdge g p.2.start_node p.2.end_node (relProps p.2))
        (gd.nodes.foldl (fun g p => addNode g p.1 (nodeProps p.2)) Digraph.empty)) id
      = some (nodeProps info)
    rw [foldl_addEdge_nodeAttrs _ _ _ hsome]
    exact hphase1
  have hbase : dictGet? [("label", PValue.pstr (rawNodeType info)),
      ("type", PValue.pstr (rawNodeType info))] "type"
      = some (.pstr (rawNodeType info)) := rfl
  have hget : dictGet? (nodeProps info) "type"
      = match dictGet? info.properties "type" with
        | some v => some v
        | none => some (.pstr (rawNodeType info)) := by
    rw [show nodeProps info = dictUpdate [("label", PValue.pstr (rawNodeType info)),
        ("type", PValue.pstr (rawNodeType info))] info.properties from rfl]
    rw [dictGet?_dictUpdate _ _ _ hprops, hbase]
    cases dictGet? info.properties "type" <;> rfl
  rw [show nodeTypeOf (buildGraph gd) id
      = ((nodeAttrs? (buildGraph gd) id).map
          (fun attrs => (dictGet? attrs "type").getD (.pstr "Unknown"))).getD
          (.pstr "Unknown") from by
    unfold nodeTypeOf
    cases nodeAttrs? (buildGraph gd) id <;> rfl]
  rw [hphase2]
  show (dictGet? (nodeProps info) "type").getD (.pstr "Unknown")
    = match dictGet? info.properties "type" with
      | some v => v
      | none => .pstr (rawNodeType info)
  rw [hget]
  cases dictGet? info.properties "type" <;> rfl

/-- Witness for the amended C5 at the override payload. -/
theorem c5_node_type_attribute_witness :
    nodeTypeOf (buildGraph overridePayload) "n1" = .pstr "Hacked" := by
  have h := c5_node_type_attribute overridePayload (by decide) "n1"
    ⟨["Movie"], [("type", .pstr "Hacked")]⟩ (List.mem_singleton.mpr rfl) (by decide)
  exact h.trans rfl

/-! ## Claim C8 -/

theorem subIn_nil (l : List Char) : subIn [] l = true := by
  cases l <;> simp [subIn, List.isPrefixOf]

theorem list_any_congr {α : Type} (f g : α → Bool) (l : List α)
    (h : ∀ a ∈ l, f a = g a) : l.any f = l.any g := by
  induction l with
  | nil => rfl
  | cons a t ih =>
    simp only [List.any_cons]
    rw [h a (List.mem_cons_self _ _), ih (fun b hb => h b (List.mem_cons_of_mem _ hb))]

/-- Counterexample for claim C8: a built node whose attribute values are
all booleans (its properties override `label` and `type` with `True`)
matches the empty search term, although it has no value of string,
integer or float kind — Python's `isinstance(value, (str, int, float))`
accepts booleans because `bool` is a subclass of `int`. -/
theorem c8_boolean_value_matches_counterexample :
    highlightMatches (buildGraph boolOnlyPayload) [] = ["n1"]
      ∧ ((nodeAttrs? (buildGraph boolOnlyPayload) "n1").getD []).all
          (fun p => !(specSearchKind p.2)) = true :=
  ⟨rfl, rfl⟩

/-- Claim C8 amended: free-text search with the empty term matches
exactly the nodes having at least one attribute value of string,
integer, float OR boolean kind (booleans pass the `isinstance` guard
since Python bools are ints); and a node all of whose attribute values
are of other kinds (lists, None) matches no search term whatsoever. -/
theorem c8_empty_search_matches_searchable_kinds (g : Digraph) :
    highlightMatches g []
        = (g.nodes.filter (fun p => p.2.any (fun q => isSearchableValue q.2))).map
            (fun p => p.1)
      ∧ ∀ (term : List Char) (p : String × List (String × PValue)), p ∈ g.nodes →
          p.2.all (fun q => !(isSearchableValue q.2)) = true →
          nodeMatchesSearch p.2 (lowerStr term) = false := by
  constructor
  · unfold highlightMatches
    congr 1
    refine List.filter_congr ?_
    intro p _
    show nodeMatchesSearch p.2 (lowerStr []) = p.2.any (fun q => isSearchableValue q.2)
    unfold nodeMatchesSearch
    refine list_any_congr _ _ _ ?_
    intro q _
    show (isSearchableValue q.2 && subIn (lowerStr []) (lowerStr (pyStr q.2)))
      = isSearchableValue q.2
    rw [show lowerStr [] = [] from rfl, subIn_nil, Bool.and_true]
  · intro term p _ hall
    unfold nodeMatchesSearch
    rw [List.any_eq_false]
    intro q hq
    have := List.all_eq_true.mp hall q hq
    simp only [Bool.not_eq_eq_eq_not, Bool.not_true] at this
    simp [this]

/-- Witness for the amended C8: a node whose only attribute value is a
list matches no search term. -/
theorem c8_empty_search_matches_searchable_kinds_witness :
    nodeMatchesSearch [("x", PValue.plist [])] (lowerStr ['z']) = false :=
  (c8_empty_search_matches_searchable_kinds ⟨[("n9", [("x", PValue.plist [])])], []⟩).2 ['z']
    ("n9", [("x", PValue.plist [])]) (List.mem_singleton.mpr rfl) rfl

/-! ## Claim C1 -/

/-- Counterexample for claim C1: two nodes of type `X` joined by an `R`
relationship, queried with the pattern (X, R, X).  The claim says the
edge is a match (both endpoints' type equals both queried types); the
code's `elif` puts every `X` node into the type-A partition only, the
type-B partition is empty, and no relationship matches. -/
theorem c1_same_type_pattern_counterexample :
    matchingNodesA twoXPayload "X" "X" = ["n1", "n2"]
      ∧ matchingNodesB twoXPayload "X" "X" = []
      ∧ matchingRelationships twoXPayload "X" "R" "X" = []
      ∧ twoXPayload.relationships.map (fun p => p.2.type) = ["R"] :=
  ⟨rfl, rfl, rfl, rfl⟩

/-- Claim C1 amended: the matcher puts a node into the type-A list iff
its primary type equals type_a, and into the type-B list iff its
primary type differs from type_a AND equals type_b (the `elif`); a node
never belongs to both lists, and when type_a = type_b the type-B list
is empty and no relationship matches at all.  A relationship is
retained iff its type equals the queried type, its start node is in the
type-A list and its end node is in the type-B list. -/
theorem c1_pattern_partition_elif (gd : GraphData) (ta rt tb : String) :
    (∀ id, id ∈ matchingNodesA gd ta tb
        ↔ ∃ info, (id, info) ∈ gd.nodes ∧ rawNodeType info = ta)
      ∧ (∀ id, id ∈ matchingNodesB gd ta tb
          ↔ ∃ info, (id, info) ∈ gd.nodes ∧ rawNodeType info ≠ ta ∧ rawNodeType info = tb)
      ∧ (ta = tb → matchingNodesB gd ta tb = [] ∧ matchingRelationships gd ta rt tb = [])
      ∧ (∀ s e r, (s, e, r) ∈ matchingRelationships gd ta rt tb
          ↔ ∃ rid, (rid, r) ∈ gd.relationships ∧ r.type = rt ∧ s = r.start_node
              ∧ e = r.end_node
              ∧ (matchingNodesA gd ta tb).contains r.start_node = true
              ∧ (matchingNodesB gd ta tb).contains r.end_node = true) := by
  refine ⟨?_, ?_, ?_, ?_⟩
  · intro id
    simp only [matchingNodesA, List.mem_map, List.mem_filter, beq_iff_eq]
    constructor
    · rintro ⟨p, ⟨hp, ht⟩, rfl⟩
      exact ⟨p.2, hp, ht⟩
    · rintro ⟨info, hmem, ht⟩
      exact ⟨(id, info), ⟨hmem, ht⟩, rfl⟩
  · intro id
    simp only [matchingNodesB, List.mem_map, List.mem_filter, Bool.and_eq_true,
      bne_iff_ne, ne_eq, beq_iff_eq]
    constructor
    · rintro ⟨p, ⟨hp, hne, ht⟩, rfl⟩
      exact ⟨p.2, hp, hne, ht⟩
    · rintro ⟨info, hmem, hne, ht⟩
      exact ⟨(id, info), ⟨hmem, hne, ht⟩, rfl⟩
  · rintro rfl
    have hfilter : gd.nodes.filter
        (fun p => rawNodeType p.2 != ta && rawNodeType p.2 == ta) = [] := by
      rw [List.filter_eq_nil_iff]
      intro p _
      cases h : rawNodeType p.2 == ta <;> simp [bne, h]
    have hb : matchingNodesB gd ta ta = [] := by
      unfold matchingNodesB
      rw [hfilter]
      rfl
    constructor
    · exact hb
    · unfold matchingRelationships
      rw [hb]
      rw [show gd.relationships.filter (fun p =>
          p.2.type == rt && (matchingNodesA gd ta ta).contains p.2.start_node
            && List.contains [] p.2.end_node) = [] from ?_]
      · rfl
      · rw [List.filter_eq_nil_iff]
        intro p _
        simp [List.contains]
  · intro s e r
    simp only [matchingRelationships, List.mem_map, List.mem_filter, Bool.and_eq_true,
      beq_iff_eq]
    constructor
    · rintro ⟨p, ⟨hp, ⟨htype, hA⟩, hB⟩, heq⟩
      have hs : p.2.start_node = s := congrArg (fun x => x.1) heq
      have he : p.2.end_node = e := congrArg (fun x => x.2.1) heq
      have hr : p.2 = r := congrArg (fun x => x.2.2) heq
      refine ⟨p.1, ?_, ?_, ?_, ?_, ?_, ?_⟩
      · rw [← hr]
        exact hp
      · rw [← hr]
        exact htype
      · rw [← hr, hs]
      · rw [← hr, he]
      · rw [← hr]
        exact hA
      · rw [← hr]
        exact hB
    · rintro ⟨rid, hmem, htype, hs, he, hA, hB⟩
      refine ⟨(rid, r), ⟨hmem, ⟨htype, hA⟩, hB⟩, ?_⟩
      rw [hs, he]
  
/-- Witness for the amended C1: at the two-`X`-node payload with the
query (X, R, X), the type-B list and the match set are empty. -/
theorem c1_pattern_partition_elif_witness :
    matchingNodesB twoXPayload "X" "X" = []
      ∧ matchingRelationships twoXPayload "X" "R" "X" = [] :=
  (c1_pattern_partition_elif twoXPayload "X" "R" "X").2.2.1 rfl

/-! ## Claim C2 -/

/-- Counterexample for claim C2: querying (X, R, Y) over a payload with
one `X` node and no relationships yields an empty triple set, yet the
pattern graph contains the `X` node — a node of a queried type appears
in the result even though it participates in no matching triple. -/
theorem c2_nonparticipating_node_included_counterexample :
    dictHas (patternGraph loneXPayload "X" "R" "Y").nodes "a" = true
      ∧ matchingRelationships loneXPayload "X" "R" "Y" = [] :=
  ⟨rfl, rfl⟩

theorem patternNodesFold_edges (gdn : List (String × RawNode)) (ids : List String)
    (g : Digraph) :
    ((ids.foldl (fun g id =>
        match dictGet? gdn id with
        | some info => addNode g id (nodeProps info)
        | none => g) g)).edges = g.edges := by
  induction ids generalizing g with
  | nil => rfl
  | cons i r ih =>
    cases hinfo : dictGet? gdn i with
    | none => simpa [hinfo] using ih g
    | some info =>
      have := ih (addNode g i (nodeProps info))
      rw [addNode_edges] at this
      simpa [hinfo] using this

theorem patternNodesFold_has (gdn : List (String × RawNode)) (ids : List String)
    (g : Digraph) (x : String)
    (hids : ∀ i ∈ ids, (dictGet? gdn i).isSome = true) :
    dictHas ((ids.foldl (fun g id =>
        match dictGet? gdn id with
        | some info => addNode g id (nodeProps info)
        | none => g) g)).nodes x = true
      ↔ (dictHas g.nodes x = true ∨ x ∈ ids) := by
  induction ids generalizing g with
  | nil => simp
  | cons i r ih =>
    obtain ⟨info, hinfo⟩ := Option.isSome_iff_exists.mp (hids i (List.mem_cons_self _ _))
    have hstep : (List.foldl (fun g id =>
        match dictGet? gdn id with
        | some info => addNode g id (nodeProps info)
        | none => g) g (i :: r))
        = (List.foldl (fun g id =>
            match dictGet? gdn id with
            | some info => addNode g id (nodeProps info)
            | none => g) (addNode g i (nodeProps info)) r) := by
      simp [hinfo]
    rw [hstep, ih _ (fun j hj => hids j (List.mem_cons_of_mem _ hj))]
    rw [show dictHas (addNode g i (nodeProps info)).nodes x
        = (dictHas g.nodes x || i == x) from dictHas_addNode g i (nodeProps info) x]
    simp only [Bool.or_eq_true, beq_iff_eq, List.mem_cons]
    aesop

theorem patternEdgesFold_nodes (l : List (String × String × RawRel)) (g : Digraph)
    (x : String) :
    dictHas ((l.foldl (fun g t => addEdge g t.1 t.2.1 (relProps t.2.2)) g)).nodes x = true
      ↔ (dictHas g.nodes x = true ∨ ∃ t ∈ l, t.1 = x ∨ t.2.1 = x) := by
  induction l generalizing g with
  | nil => simp
  | cons q r ih =>
    rw [List.foldl_cons, ih]
    rw [show dictHas (addEdge g q.1 q.2.1 (relProps q.2.2)).nodes x
        = (dictHas g.nodes x || q.1 == x || q.2.1 == x) from
      dictHas_addEdge_nodes g q.1 q.2.1 (relProps q.2.2) x]
    simp only [Bool.or_eq_true, beq_iff_eq, List.mem_cons]
    aesop

theorem patternEdgesFold_edges (l : List (String × String × RawRel)) (g : Digraph)
    (u v : String) :
    edgeHas ((l.foldl (fun g t => addEdge g t.1 t.2.1 (relProps t.2.2)) g)).edges (u, v) = true
      ↔ (edgeHas g.edges (u, v) = true ∨ ∃ t ∈ l, t.1 = u ∧ t.2.1 = v) := by
  induction l generalizing g with
  | nil => simp
  | cons q r ih =>
    rw [List.foldl_cons, ih]
    rw [show edgeHas (addEdge g q.1 q.2.1 (relProps q.2.2)).edges (u, v)
        = (edgeHas g.edges (u, v) || (q.1, q.2.1) == (u, v)) from
      edgeHas_addEdge g q.1 q.2.1 (relProps q.2.2) (u, v)]
    simp only [Bool.or_eq_true, beq_iff_eq, Prod.mk.injEq, List.mem_cons]
    aesop

theorem contains_true_iff_mem (l : List String) (x : String) :
    l.contains x = true ↔ x ∈ l := by
  induction l with
  | nil => simp
  | cons a t ih =>
    rw [show (a :: t).contains x = (x == a || t.contains x) from rfl]
    simp only [Bool.or_eq_true, beq_iff_eq, List.mem_cons]
    rw [ih]

theorem mem_keys_isSome {α : Type} (d : List (String × α)) (x : String)
    (h : x ∈ d.map (fun p => p.1)) : (dictGet? d x).isSome = true := by
  induction d with
  | nil => cases h
  | cons p r ih =>
    simp only [List.map_cons, List.mem_cons] at h
    cases hp : p.1 == x with
    | true => simp [dictGet?, List.find?, hp]
    | false =>
      rcases h with rfl | h
      · simp at hp
      · simpa [dictGet?, List.find?, hp] using ih h

theorem matchingRel_endpoints (gd : GraphData) (ta rt tb : String)
    (t : String × String × RawRel) (ht : t ∈ matchingRelationships gd ta rt tb) :
    t.1 ∈ matchingNodesA gd ta tb ∧ t.2.1 ∈ matchingNodesB gd ta tb := by
  unfold matchingRelationships at ht
  rcases List.mem_map.mp ht with ⟨p, hp, heq⟩
  rcases List.mem_filter.mp hp with ⟨_, hcond⟩
  rw [Bool.and_eq_true, Bool.and_eq_true] at hcond
  constructor
  · rw [← heq]
    exact (contains_true_iff_mem _ _).mp hcond.1.2
  · rw [← heq]
    exact (contains_true_iff_mem _ _).mp hcond.2

/-- Claim C2 amended: the pattern subgraph contains exactly the nodes of
the two partitions — EVERY node whose primary type is type_a, plus
every node whose primary type is type_b (and not type_a), whether or
not it participates in any matching triple — and exactly the (source,
target) pairs of the matching relationships as edges. -/
theorem c2_pattern_subgraph_contents (gd : GraphData) (ta rt tb : String) :
    (∀ id, dictHas (patternGraph gd ta rt tb).nodes id = true
        ↔ (id ∈ matchingNodesA gd ta tb ∨ id ∈ matchingNodesB gd ta tb))
      ∧ (∀ u v, edgeHas (patternGraph gd ta rt tb).edges (u, v) = true
          ↔ ∃ r, (u, v, r) ∈ matchingRelationships gd ta rt tb) := by
  have hids : ∀ i ∈ (matchingNodesA gd ta tb ++ matchingNodesB gd ta tb).dedup,
      (dictGet? gd.nodes i).isSome = true := by
    intro i hi
    rw [List.mem_dedup, List.mem_append] at hi
    refine mem_keys_isSome gd.nodes i ?_
    rcases hi with hi | hi
    · rcases List.mem_map.mp
        (show i ∈ (gd.nodes.filter (fun p => rawNodeType p.2 == ta)).map (fun p => p.1)
          from hi) with ⟨p, hp, hpi⟩
      exact hpi ▸ List.mem_map_of_mem _ (List.mem_of_mem_filter hp)
    · rcases List.mem_map.mp
        (show i ∈ (gd.nodes.filter
            (fun p => rawNodeType p.2 != ta && rawNodeType p.2 == tb)).map (fun p => p.1)
          from hi) with ⟨p, hp, hpi⟩
      exact hpi ▸ List.mem_map_of_mem _ (List.mem_of_mem_filter hp)
  have hnodesfold : ∀ id, dictHas
      (((matchingNodesA gd ta tb ++ matchingNodesB gd ta tb).dedup).foldl
        (fun g id => match dictGet? gd.nodes id with
          | some info => addNode g id (nodeProps info)
          | none => g) Digraph.empty).nodes id = true
      ↔ (id ∈ matchingNodesA gd ta tb ∨ id ∈ matchingNodesB gd ta tb) := by
    intro id
    rw [patternNodesFold_has gd.nodes _ Digraph.empty id hids]
    rw [show dictHas Digraph.empty.nodes id = false from rfl]
    simp [List.mem_dedup, List.mem_append]
  constructor
  · intro id
    have h1 : dictHas (patternGraph gd ta rt tb).nodes id = true
        ↔ (dictHas (((matchingNodesA gd ta tb ++ matchingNodesB gd ta tb).dedup).foldl
            (fun g id => match dictGet? gd.nodes id with
              | some info => addNode g id (nodeProps info)
              | none => g) Digraph.empty).nodes id = true
          ∨ ∃ t ∈ matchingRelationships gd ta rt tb, t.1 = id ∨ t.2.1 = id) :=
      patternEdgesFold_nodes (matchingRelationships gd ta rt tb) _ id
    rw [h1, hnodesfold id]
    constructor
    · rintro (h | ⟨t, ht, hor⟩)
      · exact h
      · have hend := matchingRel_endpoints gd ta rt tb t ht
        rcases hor with rfl | rfl
        · exact Or.inl hend.1
        · exact Or.inr hend.2
    · intro h
      exact Or.inl h
  · intro u v
    have h3 : edgeHas (patternGraph gd ta rt tb).edges (u, v) = true
        ↔ (edgeHas (((matchingNodesA gd ta tb ++ matchingNodesB gd ta tb).dedup).foldl
            (fun g id => match dictGet? gd.nodes id with
              | some info => addNode g id (nodeProps info)
              | none => g) Digraph.empty).edges (u, v) = true
          ∨ ∃ t ∈ matchingRelationships gd ta rt tb, t.1 = u ∧ t.2.1 = v) :=
      patternEdgesFold_edges (matchingRelationships gd ta rt tb) _ u v
    rw [h3]
    rw [show (((matchingNodesA gd ta tb ++ matchingNodesB gd ta tb).dedup).foldl
        (fun g id => match dictGet? gd.nodes id with
          | some info => addNode g id (nodeProps info)
          | none => g) Digraph.empty).edges = Digraph.empty.edges from
      patternNodesFold_edges gd.nodes _ Digraph.empty]
    rw [show edgeHas Digraph.empty.edges (u, v) = false from rfl]
    simp only [Bool.false_eq_true, false_or]
    constructor
    · rintro ⟨t, ht, h1, h2⟩
      refine ⟨t.2.2, ?_⟩
      rw [← h1, ← h2]
      exact ht
    · rintro ⟨r, hr⟩
      exact ⟨(u, v, r), hr, rfl, rfl⟩

/-- Witness for the amended C2 at the lone-node payload: the node `a`
is in the pattern graph because it is in the type-A partition. -/
theorem c2_pattern_subgraph_contents_witness :
    dictHas (patternGraph loneXPayload "X" "R" "Y").nodes "a" = true :=
  ((c2_pattern_subgraph_contents loneXPayload "X" "R" "Y").1 "a").mpr
    (Or.inl (by rw [show matchingNodesA loneXPayload "X" "Y" = ["a"] from rfl]; exact List.mem_singleton.mpr rfl))

/-! ## Claim C10: string toolkit -/

theorem digit_char_facts (c : Char) (h : c ∈ digitChars) :
    lowerChar c = c ∧ isSpace c = false ∧ isQuote c = false ∧ Char.isDigit c = true
      ∧ c ≠ '=' ∧ c ≠ '>' ∧ c ≠ '<' ∧ c ≠ 'c' := by
  fin_cases h <;> exact (by decide)

theorem lowerStr_id_of (l : List Char) (h : ∀ c ∈ l, lowerChar c = c) :
    lowerStr l = l := by
  induction l with
  | nil => rfl
  | cons a t ih =>
    show lowerChar a :: lowerStr t = a :: t
    rw [h a (List.mem_cons_self _ _), ih (fun c hc => h c (List.mem_cons_of_mem _ hc))]

theorem pyStrip_id_concat (p : Char → Bool) (a d : Char) (m : List Char)
    (ha : p a = false) (hd : p d = false) :
    pyStrip p (a :: m ++ [d]) = a :: m ++ [d] := by
  have h1 : List.dropWhile p (a :: m ++ [d]) = a :: m ++ [d] := by
    simp [List.dropWhile, ha]
  have h2 : List.dropWhile p (d :: (m.reverse ++ [a])) = d :: (m.reverse ++ [a]) := by
    simp [List.dropWhile, hd]
  unfold pyStrip rstripP
  rw [h1]
  rw [show (a :: m ++ [d]).reverse = d :: (m.reverse ++ [a]) from by simp]
  rw [h2]
  simp

theorem subIn_false_of_head_notin (n0 : Char) (ns : List Char) (hay : List Char)
    (h : ∀ c ∈ hay, c ≠ n0) : subIn (n0 :: ns) hay = false := by
  induction hay with
  | nil => rfl
  | cons c t ih =>
    show (List.isPrefixOf (n0 :: ns) (c :: t) || subIn (n0 :: ns) t) = false
    have hc : (n0 == c) = false := by
      have := h c (List.mem_cons_self _ _)
      simp only [beq_eq_false_iff_ne, ne_eq]
      exact fun he => this he.symm
    rw [show List.isPrefixOf (n0 :: ns) (c :: t) = (n0 == c && List.isPrefixOf ns t)
      from rfl]
    rw [hc, ih (fun x hx => h x (List.mem_cons_of_mem _ hx))]
    rfl

theorem subIn_eqeq_false (c0 : Char) (hc0 : ('=' == c0) = false) (t : List Char)
    (ht : ∀ c ∈ t, c ≠ '=') :
    subIn "==".data (c0 :: '=' :: ' ' :: t) = false := by
  show (List.isPrefixOf ['=', '='] (c0 :: '=' :: ' ' :: t)
      || subIn ['=', '='] ('=' :: ' ' :: t)) = false
  rw [show List.isPrefixOf ['=', '='] (c0 :: '=' :: ' ' :: t)
      = ('=' == c0 && List.isPrefixOf ['='] ('=' :: ' ' :: t)) from rfl, hc0]
  rw [show subIn ['=', '='] ('=' :: ' ' :: t)
      = (List.isPrefixOf ['=', '='] ('=' :: ' ' :: t) || subIn ['=', '='] (' ' :: t))
      from rfl]
  rw [show List.isPrefixOf ['=', '='] ('=' :: ' ' :: t)
      = ('=' == '=' && ('=' == ' ' && List.isPrefixOf [] t)) from rfl]
  rw [show subIn ['=', '='] (' ' :: t)
      = (List.isPrefixOf ['=', '='] (' ' :: t) || subIn ['=', '='] t) from rfl]
  rw [show List.isPrefixOf ['=', '='] (' ' :: t)
      = ('=' == ' ' && List.isPrefixOf ['='] t) from rfl]
  rw [subIn_false_of_head_notin '=' ['='] t ht]
  rfl

theorem pyReplaceAux_id_notin (o0 : Char) (os new : List Char) (fuel : Nat)
    (l : List Char) (h : ∀ c ∈ l, c ≠ o0) :
    pyReplaceAux (o0 :: os) new fuel l = l := by
  induction fuel generalizing l with
  | zero => cases l <;> rfl
  | succ fuel ih =>
    cases l with
    | nil => rfl
    | cons c t =>
      have hc : (o0 == c) = false := by
        have := h c (List.mem_cons_self _ _)
        simp only [beq_eq_false_iff_ne, ne_eq]
        exact fun he => this he.symm
      show (if List.isPrefixOf (o0 :: os) (c :: t) ∧ (o0 :: os) ≠ [] then _ else _) = c :: t
      rw [show List.isPrefixOf (o0 :: os) (c :: t) = (o0 == c && List.isPrefixOf os t)
        from rfl, hc]
      simp only [Bool.false_and, Bool.false_eq_true, false_and, if_false]
      rw [ih t (fun x hx => h x (List.mem_cons_of_mem _ hx))]

theorem pySplitAux_nosep (s0 : Char) (ss : List Char) (fuel : Nat) (l : List Char)
    (h : ∀ c ∈ l, c ≠ s0) : pySplitAux (s0 :: ss) fuel l = [l] := by
  induction fuel generalizing l with
  | zero => cases l <;> rfl
  | succ fuel ih =>
    cases l with
    | nil => rfl
    | cons c t =>
      have hc : (s0 == c) = false := by
        have := h c (List.mem_cons_self _ _)
        simp only [beq_eq_false_iff_ne, ne_eq]
        exact fun he => this he.symm
      show (if List.isPrefixOf (s0 :: ss) (c :: t) ∧ (s0 :: ss) ≠ [] then _
        else match pySplitAux (s0 :: ss) fuel t with
          | [] => [[c]]
          | h :: r => (c :: h) :: r) = [c :: t]
      rw [show List.isPrefixOf (s0 :: ss) (c :: t) = (s0 == c && List.isPrefixOf ss t)
        from rfl, hc]
      simp only [Bool.false_and, Bool.false_eq_true, false_and, if_false]
      rw [ih t (fun x hx => h x (List.mem_cons_of_mem _ hx))]

theorem pyReplace_eqeq_id (c0 : Char) (hc0 : ('=' == c0) = false) (t : List Char)
    (ht : ∀ c ∈ t, c ≠ '=') :
    pyReplace "==".data [] (c0 :: '=' :: ' ' :: t) = c0 :: '=' :: ' ' :: t := by
  show pyReplaceAux ['=', '='] [] ((c0 :: '=' :: ' ' :: t).length) (c0 :: '=' :: ' ' :: t)
    = c0 :: '=' :: ' ' :: t
  simp only [List.length_cons]
  rw [show pyReplaceAux ['=', '='] [] (t.length + 1 + 1 + 1) (c0 :: '=' :: ' ' :: t)
      = c0 :: pyReplaceAux ['=', '='] [] (t.length + 1 + 1) ('=' :: ' ' :: t) from by
    show (if List.isPrefixOf ['=', '='] (c0 :: '=' :: ' ' :: t) ∧ (['=', '='] : List Char) ≠ []
        then _ else _) = _
    rw [show List.isPrefixOf ['=', '='] (c0 :: '=' :: ' ' :: t)
        = ('=' == c0 && List.isPrefixOf ['='] ('=' :: ' ' :: t)) from rfl, hc0]
    simp]
  rw [show pyReplaceAux ['=', '='] [] (t.length + 1 + 1) ('=' :: ' ' :: t)
      = '=' :: pyReplaceAux ['=', '='] [] (t.length + 1) (' ' :: t) from by
    show (if List.isPrefixOf ['=', '='] ('=' :: ' ' :: t) ∧ (['=', '='] : List Char) ≠ []
        then _ else _) = _
    rw [show List.isPrefixOf ['=', '='] ('=' :: ' ' :: t)
        = ('=' == '=' && ('=' == ' ' && List.isPrefixOf [] t)) from rfl]
    simp]
  rw [show pyReplaceAux ['=', '='] [] (t.length + 1) (' ' :: t)
      = ' ' :: pyReplaceAux ['=', '='] [] t.length t from by
    show (if List.isPrefixOf ['=', '='] (' ' :: t) ∧ (['=', '='] : List Char) ≠ []
        then _ else _) = _
    rw [show List.isPrefixOf ['=', '='] (' ' :: t)
        = ('=' == ' ' && List.isPrefixOf ['='] t) from rfl]
    simp]
  rw [pyReplaceAux_id_notin '=' ['='] [] t.length t ht]

theorem pyReplace_eq_collapse (c0 : Char) (hc0 : ('=' == c0) = false) (t : List Char)
    (ht : ∀ c ∈ t, c ≠ '=') :
    pyReplace "=".data [] (c0 :: '=' :: ' ' :: t) = c0 :: ' ' :: t := by
  show pyReplaceAux ['='] [] ((c0 :: '=' :: ' ' :: t).length) (c0 :: '=' :: ' ' :: t)
    = c0 :: ' ' :: t
  simp only [List.length_cons]
  rw [show pyReplaceAux ['='] [] (t.length + 1 + 1 + 1) (c0 :: '=' :: ' ' :: t)
      = c0 :: pyReplaceAux ['='] [] (t.length + 1 + 1) ('=' :: ' ' :: t) from by
    show (if List.isPrefixOf ['='] (c0 :: '=' :: ' ' :: t) ∧ (['='] : List Char) ≠ []
        then _ else _) = _
    rw [show List.isPrefixOf ['='] (c0 :: '=' :: ' ' :: t)
        = ('=' == c0 && List.isPrefixOf [] ('=' :: ' ' :: t)) from rfl, hc0]
    simp]
  rw [show pyReplaceAux ['='] [] (t.length + 1 + 1) ('=' :: ' ' :: t)
      = pyReplaceAux ['='] [] (t.length + 1) (' ' :: t) from by
    show (if List.isPrefixOf ['='] ('=' :: ' ' :: t) ∧ (['='] : List Char) ≠ []
        then ([] : List Char) ++ pyReplaceAux ['='] [] (t.length + 1)
          (List.drop ((['='] : List Char).length - 1) (' ' :: t)) else _) = _
    rw [show List.isPrefixOf ['='] ('=' :: ' ' :: t)
        = ('=' == '=' && List.isPrefixOf [] (' ' :: t)) from rfl]
    simp]
  rw [show pyReplaceAux ['='] [] (t.length + 1) (' ' :: t)
      = ' ' :: pyReplaceAux ['='] [] t.length t from by
    show (if List.isPrefixOf ['='] (' ' :: t) ∧ (['='] : List Char) ≠ []
        then _ else _) = _
    rw [show List.isPrefixOf ['='] (' ' :: t)
        = ('=' == ' ' && List.isPrefixOf [] t) from rfl]
    simp]
  rw [pyReplaceAux_id_notin '=' [] [] t.length t ht]

theorem pySplit_single_at_head (op : Char) (rest : List Char)
    (h : ∀ c ∈ rest, c ≠ op) :
    pySplit [op] (op :: rest) = [[], rest] := by
  show pySplitAux [op] ((op :: rest).length) (op :: rest) = [[], rest]
  simp only [List.length_cons]
  rw [show pySplitAux [op] (rest.length + 1) (op :: rest)
      = [] :: pySplitAux [op] rest.length (List.drop 0 rest) from by
    show (if List.isPrefixOf [op] (op :: rest) ∧ ([op] : List Char) ≠ []
        then _ else _) = _
    rw [show List.isPrefixOf [op] (op :: rest)
        = (op == op && List.isPrefixOf [] rest) from rfl]
    simp]
  rw [List.drop_zero, pySplitAux_nosep op [] rest.length rest h]

theorem natDigitsAux_spec (fuel : Nat) : ∀ n, n < fuel →
    natDigitsAux fuel n ≠ [] ∧ ∀ c ∈ natDigitsAux fuel n, c ∈ digitChars := by
  induction fuel with
  | zero => intro n h; omega
  | succ fuel ih =>
    intro n _
    by_cases h10 : n < 10
    · constructor
      · show (if n < 10 then [Char.ofNat (48 + n)]
          else natDigitsAux fuel (n / 10) ++ [Char.ofNat (48 + n % 10)]) ≠ []
        simp [h10]
      · intro c hc
        rw [show natDigitsAux (fuel + 1) n = [Char.ofNat (48 + n)] from by
          show (if n < 10 then _ else _) = _
          simp [h10]] at hc
        rw [List.mem_singleton] at hc
        subst hc
        interval_cases n <;> decide
    · have hrec : n / 10 < fuel := by
        have h1 : n / 10 < n := Nat.div_lt_self (by omega) (by omega)
        omega
      have hmod : n % 10 < 10 := Nat.mod_lt _ (by omega)
      have hspec := ih (n / 10) hrec
      rw [show natDigitsAux (fuel + 1) n
          = natDigitsAux fuel (n / 10) ++ [Char.ofNat (48 + n % 10)] from by
        show (if n < 10 then _ else _) = _
        simp [h10]]
      constructor
      · simp
      · intro c hc
        rw [List.mem_append, List.mem_singleton] at hc
        rcases hc with hc | hc
        · exact hspec.2 c hc
        · subst hc
          generalize hm : n % 10 = m at hmod
          interval_cases m <;> decide

theorem natDigits_spec (n : Nat) :
    natDigits n ≠ [] ∧ ∀ c ∈ natDigits n, c ∈ digitChars :=
  natDigitsAux_spec (n + 1) n (by omega)

theorem intStr_head (n : Int) :
    ∃ c rest, intStr n = c :: rest ∧ (c = '-' ∨ c ∈ digitChars) := by
  unfold intStr
  by_cases h : n < 0
  · exact ⟨'-', natDigits n.natAbs, by simp [h], Or.inl rfl⟩
  · obtain ⟨c, rest, hcr⟩ := List.exists_cons_of_ne_nil (natDigits_spec n.toNat).1
    refine ⟨c, rest, by simp [h, hcr], Or.inr ?_⟩
    exact (natDigits_spec n.toNat).2 c (by rw [hcr]; exact List.mem_cons_self _ _)

theorem exists_head_append (l1 l2 : List Char) (h : l1 ≠ []) :
    ∃ c rest, l1 ++ l2 = c :: rest ∧ c ∈ l1 := by
  obtain ⟨c, r, hcr⟩ := List.exists_cons_of_ne_nil h
  exact ⟨c, r ++ l2, by rw [hcr]; rfl, by rw [hcr]; exact List.mem_cons_self _ _⟩

theorem ratStr_head (q : Rat) :
    ∃ c rest, ratStr q = c :: rest ∧ (c = '-' ∨ c ∈ digitChars) := by
  unfold ratStr
  by_cases h : q < 0
  · simp only [h, if_true]
    exact ⟨'-', _, rfl, Or.inl rfl⟩
  · simp only [h, if_false, List.nil_append]
    obtain ⟨c, rest, hceq, hcmem⟩ :=
      exists_head_append (natDigits |q|.floor.toNat) _ (natDigits_spec _).1
    exact ⟨c, rest, hceq, Or.inr ((natDigits_spec _).2 c hcmem)⟩

theorem lowerStr_numeric_head_not (v : PValue)
    (hv : (∃ n : Int, v = .pint n) ∨ (∃ q : Rat, v = .pnum q)) (c0 : Char)
    (hc0 : c0 = '>' ∨ c0 = '<') (l : List Char) :
    lowerStr (pyStr v) ≠ c0 :: l := by
  have hhead : ∃ c rest, pyStr v = c :: rest ∧ (c = '-' ∨ c ∈ digitChars) := by
    rcases hv with ⟨n, rfl⟩ | ⟨q, rfl⟩
    · exact intStr_head n
    · exact ratStr_head q
  obtain ⟨c, rest, hcr, hc⟩ := hhead
  rw [hcr]
  intro habs
  have hhead2 : lowerChar c = c0 := by
    have := congrArg (fun x => x.headD ' ') habs
    simpa [lowerStr] using this
  rcases hc with rfl | hc
  · rcases hc0 with rfl | rfl <;> simp [lowerChar] at hhead2
  · have hlow := (digit_char_facts c hc).1
    rw [hlow] at hhead2
    subst hhead2
    have h6 := (digit_char_facts c hc).2.2.2.2.2
    rcases hc0 with h | h
    · exact h6.1 h
    · exact h6.2.1 h

theorem op_char_facts (op : Char) (hop : op = '>' ∨ op = '<') :
    isSpace op = false ∧ isQuote op = false ∧ lowerChar op = op
      ∧ ('=' == op) = false ∧ op ≠ 'c' ∧ Char.isDigit op = false := by
  rcases hop with rfl | rfl <;> exact (by decide)

theorem evaluateFilter_opeq_cond (op : Char) (hop : op = '>' ∨ op = '<') (v : PValue)
    (t' : List Char) (d : Char) (hd : d ∈ digitChars) (h2 : ∀ c ∈ t', c ∈ digitChars) :
    evaluateFilter v (op :: '=' :: ' ' :: (t' ++ [d]))
      = decide (lowerStr (pyStr v) = op :: ' ' :: (t' ++ [d])) := by
  obtain ⟨hsp, hqu, hlo, heqop, hnc, hnd⟩ := op_char_facts op hop
  have ht : ∀ c ∈ t' ++ [d], c ∈ digitChars := by
    intro c hc
    rw [List.mem_append, List.mem_singleton] at hc
    rcases hc with hc | rfl
    · exact h2 c hc
    · exact hd
  have htne : ∀ c ∈ t' ++ [d], c ≠ '=' := fun c hc => (digit_char_facts c (ht c hc)).2.2.2.2.1
  have hdpace : isSpace d = false := (digit_char_facts d hd).2.1
  have hdquote : isQuote d = false := (digit_char_facts d hd).2.2.1
  have hstrip : pyStrip isSpace (op :: '=' :: ' ' :: (t' ++ [d]))
      = op :: '=' :: ' ' :: (t' ++ [d]) :=
    pyStrip_id_concat isSpace op d ('=' :: ' ' :: t') hsp hdpace
  have hlower : lowerStr (op :: '=' :: ' ' :: (t' ++ [d]))
      = op :: '=' :: ' ' :: (t' ++ [d]) := by
    refine lowerStr_id_of _ ?_
    intro c hc
    rcases List.mem_cons.mp hc with rfl | hc
    · exact hlo
    · rcases List.mem_cons.mp hc with rfl | hc
      · decide
      · rcases List.mem_cons.mp hc with rfl | hc
        · decide
        · exact (digit_char_facts c (ht c hc)).1
  have hcontains : subIn "contains".data (op :: '=' :: ' ' :: (t' ++ [d])) = false := by
    refine subIn_false_of_head_notin 'c' ("ontains".data) _ ?_
    intro c hc
    rcases List.mem_cons.mp hc with rfl | hc
    · exact hnc
    · rcases List.mem_cons.mp hc with rfl | hc
      · decide
      · rcases List.mem_cons.mp hc with rfl | hc
        · decide
        · exact (digit_char_facts c (ht c hc)).2.2.2.2.2.2.2
  have hgate : (List.isPrefixOf "==".data (op :: '=' :: ' ' :: (t' ++ [d]))
      || subIn "=".data (op :: '=' :: ' ' :: (t' ++ [d]))) = true := by
    rw [show subIn "=".data (op :: '=' :: ' ' :: (t' ++ [d]))
        = (List.isPrefixOf ['='] (op :: '=' :: ' ' :: (t' ++ [d]))
          || subIn ['='] ('=' :: ' ' :: (t' ++ [d]))) from rfl]
    rw [show subIn ['='] ('=' :: ' ' :: (t' ++ [d]))
        = (List.isPrefixOf ['='] ('=' :: ' ' :: (t' ++ [d]))
          || subIn ['='] (' ' :: (t' ++ [d]))) from rfl]
    rw [show List.isPrefixOf ['='] ('=' :: ' ' :: (t' ++ [d])) = true from rfl]
    simp
  have hcv1 : pyReplace "==".data [] (op :: '=' :: ' ' :: (t' ++ [d]))
      = op :: '=' :: ' ' :: (t' ++ [d]) := pyReplace_eqeq_id op heqop _ htne
  have hcv2 : pyReplace "=".data [] (op :: '=' :: ' ' :: (t' ++ [d]))
      = op :: ' ' :: (t' ++ [d]) := pyReplace_eq_collapse op heqop _ htne
  have hcv3 : pyStrip isSpace (op :: ' ' :: (t' ++ [d])) = op :: ' ' :: (t' ++ [d]) :=
    pyStrip_id_concat isSpace op d (' ' :: t') hsp hdpace
  have hcv4 : pyStrip isQuote (op :: ' ' :: (t' ++ [d])) = op :: ' ' :: (t' ++ [d]) :=
    pyStrip_id_concat isQuote op d (' ' :: t') hqu hdquote
  have hdig : pyIsDigit (op :: ' ' :: (t' ++ [d])) = false := by
    show (!(op :: ' ' :: (t' ++ [d])).isEmpty
      && (op :: ' ' :: (t' ++ [d])).all Char.isDigit) = false
    rw [show (op :: ' ' :: (t' ++ [d])).all Char.isDigit
        = (Char.isDigit op && (' ' :: (t' ++ [d])).all Char.isDigit) from rfl, hnd]
    simp
  have hlowercv : lowerStr (op :: ' ' :: (t' ++ [d])) = op :: ' ' :: (t' ++ [d]) := by
    refine lowerStr_id_of _ ?_
    intro c hc
    rcases List.mem_cons.mp hc with rfl | hc
    · exact hlo
    · rcases List.mem_cons.mp hc with rfl | hc
      · decide
      · exact (digit_char_facts c (ht c hc)).1
  have hcontains' : ¬(subIn "contains".data (op :: '=' :: ' ' :: (t' ++ [d])) = true) := by
    rw [hcontains]
    decide
  have hdig' : ¬(pyIsDigit (op :: ' ' :: (t' ++ [d])) = true) := by
    rw [hdig]
    decide
  unfold evaluateFilter
  rw [show (op :: '=' :: ' ' :: (t' ++ [d])).isEmpty = false from rfl]
  rw [if_neg (by decide : ¬(false = true))]
  rw [hstrip, hlower]
  unfold evaluateFilterCore
  rw [if_neg hcontains']
  rw [if_pos hgate]
  rw [hcv1, hcv2, hcv3, hcv4]
  rw [if_neg hdig']
  rw [hlowercv]

theorem parseFilterCondition_opeq_cond (op : Char) (hop : op = '>' ∨ op = '<')
    (v : PValue) (t' : List Char) (d : Char) (hd : d ∈ digitChars)
    (h2 : ∀ c ∈ t', c ∈ digitChars) :
    parseFilterCondition v (op :: '=' :: ' ' :: (t' ++ [d])) = false := by
  obtain ⟨hsp, hqu, hlo, heqop, hnc, hnd⟩ := op_char_facts op hop
  have ht : ∀ c ∈ t' ++ [d], c ∈ digitChars := by
    intro c hc
    rw [List.mem_append, List.mem_singleton] at hc
    rcases hc with hc | rfl
    · exact h2 c hc
    · exact hd
  have htne : ∀ c ∈ t' ++ [d], c ≠ '=' := fun c hc => (digit_char_facts c (ht c hc)).2.2.2.2.1
  have htgt : ∀ c ∈ t' ++ [d], c ≠ '>' := fun c hc => (digit_char_facts c (ht c hc)).2.2.2.2.2.1
  have hdpace : isSpace d = false := (digit_char_facts d hd).2.1
  have hstrip : pyStrip isSpace (op :: '=' :: ' ' :: (t' ++ [d]))
      = op :: '=' :: ' ' :: (t' ++ [d]) :=
    pyStrip_id_concat isSpace op d ('=' :: ' ' :: t') hsp hdpace
  have hlower : lowerStr (op :: '=' :: ' ' :: (t' ++ [d]))
      = op :: '=' :: ' ' :: (t' ++ [d]) := by
    refine lowerStr_id_of _ ?_
    intro c hc
    rcases List.mem_cons.mp hc with rfl | hc
    · exact hlo
    · rcases List.mem_cons.mp hc with rfl | hc
      · decide
      · rcases List.mem_cons.mp hc with rfl | hc
        · decide
        · exact (digit_char_facts c (ht c hc)).1
  have hcontains' : ¬(subIn "contains".data (op :: '=' :: ' ' :: (t' ++ [d])) = true) := by
    rw [subIn_false_of_head_notin 'c' ("ontains".data) _ ?_]
    · decide
    · intro c hc
      rcases List.mem_cons.mp hc with rfl | hc
      · exact hnc
      · rcases List.mem_cons.mp hc with rfl | hc
        · decide
        · rcases List.mem_cons.mp hc with rfl | hc
          · decide
          · exact (digit_char_facts c (ht c hc)).2.2.2.2.2.2.2
  have heqeq' : ¬(subIn "==".data (op :: '=' :: ' ' :: (t' ++ [d])) = true) := by
    rw [subIn_eqeq_false op heqop _ htne]
    decide
  have hstrip2 : pyStrip isSpace ('=' :: ' ' :: (t' ++ [d])) = '=' :: ' ' :: (t' ++ [d]) :=
    pyStrip_id_concat isSpace '=' d (' ' :: t') (by decide) hdpace
  have hfloat : pyFloat (pyStrip isSpace ('=' :: ' ' :: (t' ++ [d]))) = none := by
    rw [hstrip2]
    unfold pyFloat
    rw [hstrip2]
    rfl
  unfold parseFilterCondition
  rw [hstrip, hlower]
  unfold parseFilterConditionCore
  rw [if_neg hcontains']
  rw [if_neg heqeq']
  cases hpv : pyFloatOfValue v with
  | none => rfl
  | some value =>
    show parseNumericSection value _ = false
    unfold parseNumericSection
    rcases hop with rfl | rfl
    · have hgt : subIn ">".data ('>' :: '=' :: ' ' :: (t' ++ [d])) = true := by
        show (List.isPrefixOf ['>'] ('>' :: '=' :: ' ' :: (t' ++ [d]))
          || subIn ['>'] ('=' :: ' ' :: (t' ++ [d]))) = true
        rw [show List.isPrefixOf ['>'] ('>' :: '=' :: ' ' :: (t' ++ [d])) = true from rfl]
        simp
      have hsplit := pySplit_single_at_head '>' ('=' :: ' ' :: (t' ++ [d])) (by
        intro c hc
        rcases List.mem_cons.mp hc with rfl | hc
        · decide
        · rcases List.mem_cons.mp hc with rfl | hc
          · decide
          · exact htgt c hc)
      rw [if_pos hgt]
      rw [hsplit]
      rw [show ([[], '=' :: ' ' :: (t' ++ [d])] : List (List Char)).getD 1 []
          = '=' :: ' ' :: (t' ++ [d]) from rfl]
      rw [hfloat]
    · have hngt : ¬(subIn ">".data ('<' :: '=' :: ' ' :: (t' ++ [d])) = true) := by
        rw [subIn_false_of_head_notin '>' [] _ ?_]
        · decide
        · intro c hc
          rcases List.mem_cons.mp hc with rfl | hc
          · decide
          · rcases List.mem_cons.mp hc with rfl | hc
            · decide
            · rcases List.mem_cons.mp hc with rfl | hc
              · decide
              · exact htgt c hc
      have hlt : subIn "<".data ('<' :: '=' :: ' ' :: (t' ++ [d])) = true := by
        show (List.isPrefixOf ['<'] ('<' :: '=' :: ' ' :: (t' ++ [d]))
          || subIn ['<'] ('=' :: ' ' :: (t' ++ [d]))) = true
        rw [show List.isPrefixOf ['<'] ('<' :: '=' :: ' ' :: (t' ++ [d])) = true from rfl]
        simp
      have hsplit := pySplit_single_at_head '<' ('=' :: ' ' :: (t' ++ [d])) (by
        intro c hc
        rcases List.mem_cons.mp hc with rfl | hc
        · decide
        · rcases List.mem_cons.mp hc with rfl | hc
          · decide
          · exact fun he => (digit_char_facts c (ht c hc)).2.2.2.2.2.2.1 he)
      rw [if_neg hngt]
      rw [if_pos hlt]
      rw [hsplit]
      rw [show ([[], '=' :: ' ' :: (t' ++ [d])] : List (List Char)).getD 1 []
          = '=' :: ' ' :: (t' ++ [d]) from rfl]
      rw [hfloat]

/-! ## Claim C10 -/

/-- Claim C10: for every property value `v` and digit-string threshold
`t`, a condition of the form `">= t"` (or `"<= t"`) never performs an
inclusive numeric comparison.  In `_evaluate_filter` the condition
contains `"="` and is routed to the equality branch before the numeric
branch: the call returns `True` exactly when the stringified value
equals the leftover literal `"> t"` (resp. `"< t"`) obtained by deleting
the `"="`; in particular a numeric (integer or float) value equal to the
threshold does not match.  In `parse_filter_condition` the call returns
`False` outright (the `">"` branch is entered and `float("= t")`
raises), so it too never compares inclusively. -/
theorem c10_ge_condition_never_inclusive (v : PValue) (t : List Char)
    (h1 : t ≠ []) (h2 : ∀ c ∈ t, c ∈ digitChars) :
    (evaluateFilter v ('>' :: '=' :: ' ' :: t) = true
        ↔ lowerStr (pyStr v) = '>' :: ' ' :: t)
      ∧ (evaluateFilter v ('<' :: '=' :: ' ' :: t) = true
          ↔ lowerStr (pyStr v) = '<' :: ' ' :: t)
      ∧ parseFilterCondition v ('>' :: '=' :: ' ' :: t) = false
      ∧ parseFilterCondition v ('<' :: '=' :: ' ' :: t) = false
      ∧ (∀ n : Int, evaluateFilter (.pint n) ('>' :: '=' :: ' ' :: t) = false)
      ∧ (∀ q : Rat, evaluateFilter (.pnum q) ('>' :: '=' :: ' ' :: t) = false) := by
  rcases List.eq_nil_or_concat t with rfl | ⟨t', d, rfl⟩
  · cases h1 rfl
  · simp only [List.concat_eq_append] at h1 h2 ⊢
    have hd : d ∈ digitChars := h2 d (by simp)
    have h2' : ∀ c ∈ t', c ∈ digitChars := fun c hc =>
      h2 c (by rw [List.mem_append]; exact Or.inl hc)
    have e1 := evaluateFilter_opeq_cond '>' (Or.inl rfl) v t' d hd h2'
    have e2 := evaluateFilter_opeq_cond '<' (Or.inr rfl) v t' d hd h2'
    refine ⟨?_, ?_, ?_, ?_, ?_, ?_⟩
    · rw [e1]
      exact decide_eq_true_iff
    · rw [e2]
      exact decide_eq_true_iff
    · exact parseFilterCondition_opeq_cond '>' (Or.inl rfl) v t' d hd h2'
    · exact parseFilterCondition_opeq_cond '<' (Or.inr rfl) v t' d hd h2'
    · intro n
      rw [evaluateFilter_opeq_cond '>' (Or.inl rfl) (.pint n) t' d hd h2']
      exact decide_eq_false
        (lowerStr_numeric_head_not (.pint n) (Or.inl ⟨n, rfl⟩) '>' (Or.inl rfl) _)
    · intro q
      rw [evaluateFilter_opeq_cond '>' (Or.inl rfl) (.pnum q) t' d hd h2']
      exact decide_eq_false
        (lowerStr_numeric_head_not (.pnum q) (Or.inr ⟨q, rfl⟩) '>' (Or.inl rfl) _)

/-- Witness for C10 at the threshold literal `"5"`: an integer value
equal to the threshold does not match `">= 5"` under either evaluator,
while the string value `"> 5"` does match under `_evaluate_filter`. -/
theorem c10_ge_condition_never_inclusive_witness :
    evaluateFilter (.pint 5) ('>' :: '=' :: ' ' :: ['5']) = false
      ∧ parseFilterCondition (.pint 5) ('>' :: '=' :: ' ' :: ['5']) = false
      ∧ (evaluateFilter (.pstr "> 5") ('>' :: '=' :: ' ' :: ['5']) = true
          ↔ lowerStr (pyStr (.pstr "> 5")) = '>' :: ' ' :: ['5']) :=
  ⟨(c10_ge_condition_never_inclusive (.pint 5) ['5'] (by decide)
      (by decide)).2.2.2.2.1 5,
   (c10_ge_condition_never_inclusive (.pint 5) ['5'] (by decide) (by decide)).2.2.1,
   (c10_ge_condition_never_inclusive (.pstr "> 5") ['5'] (by decide) (by decide)).1⟩

end Dashboard
